import Mathlib

/-!
# Verification of the retrieval-aware streaming response pipeline

Shallow embedding of the studybuddy backend core:

* `app/agents/context_formatter.py` — context formatter,
* `app/adapters/vercel_stream.py` — source extractor and protocol adapter,
* `app/services/message_sources_service.py` — source persistence.

Python dynamic values are embedded as the inductive type `Val`; operations
that can raise in Python (attribute access on a non-dict, `int()` on a bad
value, slicing a non-string) return `Except String`.
-/

set_option maxRecDepth 4000

/-- Embedded Python value (the shapes reaching the formatter / extractor:
strings, ints, floats (as rationals), `None`, lists, dicts with string keys). -/
inductive Val where
  | vstr (s : String)
  | vint (n : Int)
  | vfloat (q : Rat)
  | vnone
  | vlist (xs : List Val)
  | vdict (entries : List (String × Val))

namespace Val

/-- Python truthiness for the embedded values. -/
def truthy : Val → Bool
  | vstr s => decide (s ≠ "")
  | vint n => decide (n ≠ 0)
  | vfloat q => decide (q ≠ 0)
  | vnone => false
  | vlist xs => !xs.isEmpty
  | vdict d => !d.isEmpty

/-- `str(v)`.  Only the string/int/none renderings are relied on by theorems;
float/list/dict renderings are best-effort stand-ins for Python `repr`. -/
def pyStr : Val → String
  | vstr s => s
  | vint n => toString n
  | vfloat q => toString q
  | vnone => "None"
  | vlist _ => "[...]"
  | vdict _ => "{...}"

/-- Dict lookup (first match wins, later `dictSet` keeps one entry per key). -/
def lookupKey (k : String) : List (String × Val) → Option Val
  | [] => none
  | (k', v) :: rest => if k' = k then some v else lookupKey k rest

/-- `d.get(k, default)` on a value known to be a dict. -/
def dictGetD (d : List (String × Val)) (k : String) (default : Val) : Val :=
  (lookupKey k d).getD default

/-- `v.get(k, default)`: raises `AttributeError` when `v` is not a dict. -/
def getE (v : Val) (k : String) (default : Val) : Except String Val :=
  match v with
  | vdict d => .ok (dictGetD d k default)
  | _ => .error "AttributeError: object has no attribute get"

/-- `d[k] = x`: overwrite in place if present (keeping position), else append. -/
def dictSet (d : List (String × Val)) (k : String) (x : Val) : List (String × Val) :=
  match d with
  | [] => [(k, x)]
  | (k', v) :: rest => if k' = k then (k, x) :: rest else (k', v) :: dictSet rest k x

/-- Truncation toward zero, as Python `int()` applied to a float. -/
def truncRat (q : Rat) : Int :=
  if 0 ≤ q then ⌊q⌋ else ⌈q⌉

/-- Strip leading and trailing whitespace (Python `str.strip()`). -/
def pyTrim (s : String) : String :=
  String.mk (((s.toList.dropWhile Char.isWhitespace).reverse.dropWhile
    Char.isWhitespace).reverse)

/-- Decimal value of a nonempty all-digit character list, else `none`. -/
def parseDigits (cs : List Char) : Option Nat :=
  if cs ≠ [] ∧ cs.all Char.isDigit then
    some (cs.foldl (fun acc c => acc * 10 + (c.toNat - 48)) 0)
  else none

/-- Parse an optionally signed decimal integer literal (`int()` on a string). -/
def parseIntLit (s : String) : Option Int :=
  match (pyTrim s).toList with
  | '-' :: rest => (parseDigits rest).map (fun n => -(n : Int))
  | '+' :: rest => (parseDigits rest).map (fun n => (n : Int))
  | cs => (parseDigits cs).map (fun n => (n : Int))

/-- `int(v)`: ints pass through, floats truncate toward zero, strings parse as
decimal literals; everything else raises. -/
def pyIntE : Val → Except String Int
  | vint n => .ok n
  | vfloat q => .ok (truncRat q)
  | vstr s =>
    match parseIntLit s with
    | some n => .ok n
    | none => .error "ValueError: invalid literal for int"
  | _ => .error "TypeError: int() argument"

/-- `v.strip()`: raises unless `v` is a string. -/
def pyStripE : Val → Except String String
  | vstr s => .ok (pyTrim s)
  | _ => .error "AttributeError: object has no attribute strip"

/-- `v[:n]`: raises unless `v` is a string (character slicing). -/
def pySliceE (v : Val) (n : Nat) : Except String String :=
  match v with
  | vstr s => .ok (s.take n)
  | _ => .error "TypeError: value is not subscriptable"

mutual

/-- Python `==` on the embedded values: numeric cross-type equality, same-type
structural equality, `False` across distinct non-numeric types.  (Dict `==`
is modelled entry-order-sensitively; sort keys compared by the code are
scalars, so the corner is never exercised.) -/
def pyEqb : Val → Val → Bool
  | vstr a, vstr b => decide (a = b)
  | vint a, vint b => decide (a = b)
  | vint a, vfloat b => decide ((a : Rat) = b)
  | vfloat a, vint b => decide (a = (b : Rat))
  | vfloat a, vfloat b => decide (a = b)
  | vnone, vnone => true
  | vlist a, vlist b => pyEqbList a b
  | vdict a, vdict b => pyEqbDict a b
  | _, _ => false

/-- Elementwise Python `==` on lists. -/
def pyEqbList : List Val → List Val → Bool
  | [], [] => true
  | x :: xs, y :: ys => pyEqb x y && pyEqbList xs ys
  | _, _ => false

/-- Pairwise Python `==` on dict entry lists. -/
def pyEqbDict : List (String × Val) → List (String × Val) → Bool
  | [], [] => true
  | (k, v) :: xs, (k', v') :: ys => decide (k = k') && pyEqb v v' && pyEqbDict xs ys
  | _, _ => false

end

/-- Python `<` on the embedded values: strings lexicographically, numbers with
cross-type int/float comparison; anything else raises `TypeError`. -/
def pyLtE : Val → Val → Except String Bool
  | vstr a, vstr b => .ok (decide (a < b))
  | vint a, vint b => .ok (decide (a < b))
  | vint a, vfloat b => .ok (decide ((a : Rat) < b))
  | vfloat a, vint b => .ok (decide (a < (b : Rat)))
  | vfloat a, vfloat b => .ok (decide (a < b))
  | _, _ => .error "TypeError: unsupported comparison"

/-- Python `<` on a pair (tuple comparison: first components decide unless
they compare equal, in which case the second components decide). -/
def tupLtE (a b : Val × Val) : Except String Bool :=
  if pyEqb a.1 b.1 then pyLtE a.2 b.2 else pyLtE a.1 b.1

/-- `x or default` (used as `source.title or ...`, `chunk_number or 0`). -/
def pyOr (x default : Val) : Val :=
  if truthy x then x else default

end Val

open Val

/-! ## Context formatter (`app/agents/context_formatter.py`) -/

/-- Result of `format_retrieval_context`. -/
structure FormattedContext where
  model_context : String
  client_sources : List Val
  chunk_map : List (Nat × Val)

/-- Zero-padded two-digit rendering (`f"{n:02d}"` for the nonnegative values
produced by `divmod`). -/
def pad2 (n : Int) : String :=
  if 0 ≤ n ∧ n < 10 then "0" ++ toString n else toString n

/-- `_format_timestamp`: seconds to `M:SS` or `H:MM:SS`.  The Python function
calls `int(seconds)` on the raw metadata value, so it raises on bad input. -/
def format_timestamp (seconds : Val) : Except String String :=
  match pyIntE seconds with
  | .error e => .error e
  | .ok total =>
    let hours := total / 3600
    let remainder := total % 3600
    let minutes := remainder / 60
    let secs := remainder % 60
    if hours > 0 then
      .ok (toString hours ++ ":" ++ pad2 minutes ++ ":" ++ pad2 secs)
    else
      .ok (toString minutes ++ ":" ++ pad2 secs)

/-- `_get_source_hint`: minimal source hint for the model context. -/
def get_source_hint (ref : Val) : Except String String :=
  match ref.getE "metadata" (vdict []) with
  | .error e => .error e
  | .ok meta =>
    match meta.getE "document_id" vnone with
    | .error e => .error e
    | .ok docId =>
      if docId.truthy then
        match meta.getE "slide_number" (vstr "?") with
        | .error e => .error e
        | .ok slideNum => .ok ("Slide " ++ slideNum.pyStr)
      else
        match meta.getE "lecture_id" vnone with
        | .error e => .error e
        | .ok lecId =>
          if lecId.truthy then
            match meta.getE "start_seconds" (vint 0) with
            | .error e => .error e
            | .ok start =>
              match format_timestamp start with
              | .error e => .error e
              | .ok ts => .ok ("Lecture @" ++ ts)
          else
            .ok "Source"

/-- `_extract_sort_key_slide`: `(document_id, slide_number)` with defaults. -/
def extract_sort_key_slide (ref : Val) : Except String (Val × Val) :=
  match ref.getE "metadata" (vdict []) with
  | .error e => .error e
  | .ok meta =>
    match meta.getE "document_id" (vstr ""), meta.getE "slide_number" (vint 0) with
    | .error e, _ => .error e
    | _, .error e => .error e
    | .ok d, .ok n => .ok (d, n)

/-- `_extract_sort_key_lecture`: `(lecture_id, start_seconds)` with defaults. -/
def extract_sort_key_lecture (ref : Val) : Except String (Val × Val) :=
  match ref.getE "metadata" (vdict []) with
  | .error e => .error e
  | .ok meta =>
    match meta.getE "lecture_id" (vstr ""), meta.getE "start_seconds" (vfloat 0) with
    | .error e, _ => .error e
    | _, .error e => .error e
    | .ok l, .ok s => .ok (l, s)

/-- Error-propagating map (each element evaluated left to right). -/
def mapE (f : α → Except String β) : List α → Except String (List β)
  | [] => .ok []
  | x :: xs =>
    match f x with
    | .error e => .error e
    | .ok y =>
      match mapE f xs with
      | .error e => .error e
      | .ok ys => .ok (y :: ys)

/-- Insert a keyed element into a sorted list: it goes before the first
element whose key it is strictly below (so equal keys keep original order,
as Python's stable sort does). -/
def insertKeyedE (x : (Val × Val) × Val) :
    List ((Val × Val) × Val) → Except String (List ((Val × Val) × Val))
  | [] => .ok [x]
  | y :: ys =>
    match tupLtE x.1 y.1 with
    | .error e => .error e
    | .ok true => .ok (x :: y :: ys)
    | .ok false =>
      match insertKeyedE x ys with
      | .error e => .error e
      | .ok r => .ok (y :: r)

/-- Stable insertion sort on key/value pairs, processing left to right. -/
def sortKeyedAuxE (acc : List ((Val × Val) × Val)) :
    List ((Val × Val) × Val) → Except String (List ((Val × Val) × Val))
  | [] => .ok acc
  | x :: xs =>
    match insertKeyedE x acc with
    | .error e => .error e
    | .ok acc2 => sortKeyedAuxE acc2 xs

/-- `list.sort(key=keyFn)`: decorate with precomputed keys, stable-sort by
Python tuple comparison, undecorate. -/
def sortByKeyE (keyFn : Val → Except String (Val × Val)) (l : List Val) :
    Except String (List Val) :=
  match mapE (fun r =>
      match keyFn r with
      | .error e => .error e
      | .ok k => .ok (k, r)) l with
  | .error e => .error e
  | .ok keyed =>
    match sortKeyedAuxE [] keyed with
    | .error e => .error e
    | .ok sorted => .ok (sorted.map Prod.snd)

/-- Classification used by `_order_chunks` for the slide bucket. -/
def isSlideRef (ref : Val) : Except String Bool :=
  match ref.getE "metadata" (vdict []) with
  | .error e => .error e
  | .ok meta =>
    match meta.getE "document_id" vnone with
    | .error e => .error e
    | .ok d => .ok d.truthy

/-- Classification used by `_order_chunks` for the lecture bucket. -/
def isLectureRef (ref : Val) : Except String Bool :=
  match ref.getE "metadata" (vdict []) with
  | .error e => .error e
  | .ok meta =>
    match meta.getE "lecture_id" vnone with
    | .error e => .error e
    | .ok l => .ok l.truthy

/-- The bucketing loop of `_order_chunks` (a non-dict goes to `other`
immediately; otherwise slide/lecture/other by truthy metadata ids). -/
def partitionRefsE : List Val → Except String (List Val × List Val × List Val)
  | [] => .ok ([], [], [])
  | ref :: rest =>
    match ref with
    | vdict d =>
      match isSlideRef (vdict d) with
      | .error e => .error e
      | .ok true =>
        match partitionRefsE rest with
        | .error e => .error e
        | .ok (s, l, o) => .ok (vdict d :: s, l, o)
      | .ok false =>
        match isLectureRef (vdict d) with
        | .error e => .error e
        | .ok true =>
          match partitionRefsE rest with
          | .error e => .error e
          | .ok (s, l, o) => .ok (s, vdict d :: l, o)
        | .ok false =>
          match partitionRefsE rest with
          | .error e => .error e
          | .ok (s, l, o) => .ok (s, l, vdict d :: o)
    | r =>
      match partitionRefsE rest with
      | .error e => .error e
      | .ok (s, l, o) => .ok (s, l, r :: o)

/-- Ordering mode of the formatter. -/
inductive OrderBy where
  | relevance
  | chronological
deriving DecidableEq, Repr

/-- `_order_chunks`: keep input order for relevance, else partition into
slide/lecture/other buckets, sort the first two, and concatenate. -/
def order_chunks (references : List Val) (order_by : OrderBy) :
    Except String (List Val) :=
  match order_by with
  | .relevance => .ok references
  | .chronological =>
    match partitionRefsE references with
    | .error e => .error e
    | .ok (slides, lectures, other) =>
      match sortByKeyE extract_sort_key_slide slides with
      | .error e => .error e
      | .ok slides2 =>
        match sortByKeyE extract_sort_key_lecture lectures with
        | .error e => .error e
        | .ok lectures2 => .ok (slides2 ++ lectures2 ++ other)

/-- One line of `_build_model_context` (`none` when content is blank). -/
def modelContextLine (i : Nat) (ref : Val) : Except String (Option String) :=
  match ref with
  | vstr s =>
    let content := pyTrim s
    if content = "" then .ok none
    else .ok (some ("[" ++ toString i ++ "] (Source) " ++ content))
  | _ =>
    match ref.getE "content" (vstr "") with
    | .error e => .error e
    | .ok raw =>
      match pyStripE raw with
      | .error e => .error e
      | .ok content =>
        match get_source_hint ref with
        | .error e => .error e
        | .ok hint =>
          if content = "" then .ok none
          else .ok (some ("[" ++ toString i ++ "] (" ++ hint ++ ") " ++ content))

/-- The numbered-line loop of `_build_model_context`. -/
def modelContextLines (i : Nat) : List Val → Except String (List String)
  | [] => .ok []
  | ref :: rest =>
    match modelContextLine i ref with
    | .error e => .error e
    | .ok line =>
      match modelContextLines (i + 1) rest with
      | .error e => .error e
      | .ok ls =>
        match line with
        | some l => .ok (l :: ls)
        | none => .ok ls

/-- `_build_model_context`: numbered lines joined by blank lines,
whitespace-only content skipped. -/
def build_model_context (ordered_refs : List Val) : Except String String :=
  match modelContextLines 1 ordered_refs with
  | .error e => .error e
  | .ok lines => .ok (String.intercalate "\n\n" lines)

/-- One element of `_enrich_client_sources`. -/
def enrichClientSource (i : Nat) (ref : Val) : Val :=
  match ref with
  | vdict d => vdict (dictSet d "chunk_number" (vint (i : Int)))
  | r => vdict [("content", vstr r.pyStr), ("chunk_number", vint (i : Int))]

/-- `_enrich_client_sources`: copy each reference and add its 1-based
`chunk_number`. -/
def enrich_client_sources (ordered_refs : List Val) : List Val :=
  (ordered_refs.enumFrom 1).map (fun p => enrichClientSource p.1 p.2)

/-- One entry of `_build_chunk_map`. -/
def chunkMapEntry (i : Nat) (ref : Val) : Nat × Val :=
  match ref with
  | vdict d => (i, vdict d)
  | r => (i, vdict [("content", vstr r.pyStr)])

/-- `_build_chunk_map`: chunk number to full reference. -/
def build_chunk_map (ordered_refs : List Val) : List (Nat × Val) :=
  (ordered_refs.enumFrom 1).map (fun p => chunkMapEntry p.1 p.2)

/-- The normalization loop of `format_retrieval_context`: dicts pass through,
anything else becomes `{"content": str(ref)}`. -/
def normalizeRef (ref : Val) : Val :=
  match ref with
  | vdict d => vdict d
  | r => vdict [("content", vstr r.pyStr)]

/-- `format_retrieval_context`: normalize, order, and build the three views. -/
def format_retrieval_context (references : List Val) (order_by : OrderBy) :
    Except String FormattedContext :=
  let normalized := references.map normalizeRef
  match order_chunks normalized order_by with
  | .error e => .error e
  | .ok ordered =>
    match build_model_context ordered with
    | .error e => .error e
    | .ok model_context =>
      .ok { model_context
            client_sources := enrich_client_sources ordered
            chunk_map := build_chunk_map ordered }

/-! ## Shape predicates and pure views of sort keys -/

/-- The value is an embedded Python string. -/
def isStrB : Val → Bool
  | .vstr _ => true
  | _ => false

/-- The value is an embedded Python number (int or float). -/
def isNumB : Val → Bool
  | .vint _ => true
  | .vfloat _ => true
  | _ => false

/-- String content of a value (defaulting). -/
def strOf : Val → String
  | .vstr s => s
  | _ => ""

/-- Numeric content of a value as a rational (defaulting). -/
def ratOfNum : Val → Rat
  | .vint n => (n : Rat)
  | .vfloat q => q
  | _ => 0

/-- A sort key whose comparisons Python never rejects: a string paired with a
number, as produced by both key extractors on well-typed metadata. -/
def goodKey (k : Val × Val) : Prop :=
  isStrB k.1 = true ∧ isNumB k.2 = true

/-- Pure view of a good key. -/
def pureKey (k : Val × Val) : String × Rat :=
  (strOf k.1, ratOfNum k.2)

/-- Lexicographic strict order on pure keys (Python tuple `<`). -/
def keyLt (p q : String × Rat) : Prop :=
  p.1 < q.1 ∨ (p.1 = q.1 ∧ p.2 < q.2)

theorem keyLt_asymm {p q : String × Rat} (h : keyLt p q) : ¬ keyLt q p := by
  rcases h with h | ⟨he, h2⟩
  · rintro (h' | ⟨he', _⟩)
    · exact absurd h' (lt_asymm h)
    · exact absurd h (he' ▸ lt_irrefl _)
  · rintro (h' | ⟨_, h2'⟩)
    · exact absurd h' (he ▸ lt_irrefl _)
    · exact absurd h2 (lt_asymm h2')

theorem keyLt_trans {p q r : String × Rat} (h1 : keyLt p q) (h2 : keyLt q r) :
    keyLt p r := by
  rcases h1 with h1 | ⟨he1, hs1⟩ <;> rcases h2 with h2 | ⟨he2, hs2⟩
  · exact Or.inl (lt_trans h1 h2)
  · exact Or.inl (he2 ▸ h1)
  · exact Or.inl (he1 ▸ h2)
  · exact Or.inr ⟨he1.trans he2, lt_trans hs1 hs2⟩

instance : ∀ p q : String × Rat, Decidable (keyLt p q) := by
  intro p q
  unfold keyLt
  infer_instance

theorem pyLtE_num {a b : Val} (ha : isNumB a = true) (hb : isNumB b = true) :
    pyLtE a b = .ok (decide (ratOfNum a < ratOfNum b)) := by
  cases a <;> cases b <;> simp_all [isNumB, pyLtE, ratOfNum]

theorem tupLtE_good {a b : Val × Val} (ha : goodKey a) (hb : goodKey b) :
    tupLtE a b = .ok (decide (keyLt (pureKey a) (pureKey b))) := by
  obtain ⟨ha1, ha2⟩ := ha
  obtain ⟨hb1, hb2⟩ := hb
  obtain ⟨a1, a2⟩ := a
  obtain ⟨b1, b2⟩ := b
  cases a1 <;> simp_all [isStrB]
  cases b1 <;> simp_all [isStrB]
  rename_i s t
  by_cases hst : s = t
  · subst hst
    have h1 : tupLtE (vstr s, a2) (vstr s, b2) = pyLtE a2 b2 := by
      simp [tupLtE, pyEqb]
    rw [h1, pyLtE_num ha2 hb2]
    congr 1
    rw [decide_eq_decide]
    simp [keyLt, pureKey, strOf]
  · have h1 : tupLtE (vstr s, a2) (vstr t, b2) = pyLtE (vstr s) (vstr t) := by
      simp [tupLtE, pyEqb, hst]
    rw [h1]
    show Except.ok (decide (s < t)) = _
    congr 1
    rw [decide_eq_decide]
    simp [keyLt, pureKey, strOf, hst]

/-! ## Correctness of the keyed stable sort -/

/-- Sortedness of a keyed list: no later element has a strictly smaller key. -/
def SortedKeyed (l : List ((Val × Val) × Val)) : Prop :=
  l.Pairwise (fun a b => ¬ keyLt (pureKey b.1) (pureKey a.1))

theorem insertKeyedE_good (x : (Val × Val) × Val) (l : List ((Val × Val) × Val))
    (hx : goodKey x.1) (hl : ∀ y ∈ l, goodKey y.1) (hs : SortedKeyed l) :
    ∃ r, insertKeyedE x l = .ok r ∧ r.Perm (x :: l) ∧ SortedKeyed r := by
  induction l with
  | nil =>
    exact ⟨[x], rfl, List.Perm.refl _, List.pairwise_singleton _ _⟩
  | cons y ys ih =>
    have hy : goodKey y.1 := hl y (List.mem_cons_self _ _)
    have hys : ∀ z ∈ ys, goodKey z.1 := fun z hz => hl z (List.mem_cons_of_mem _ hz)
    have hcmp := tupLtE_good hx hy
    rw [SortedKeyed, List.pairwise_cons] at hs
    obtain ⟨hyall, hsys⟩ := hs
    by_cases hlt : keyLt (pureKey x.1) (pureKey y.1)
    · refine ⟨x :: y :: ys, ?_, List.Perm.refl _, ?_⟩
      · simp [insertKeyedE, hcmp, hlt]
      · rw [SortedKeyed, List.pairwise_cons]
        constructor
        · intro z hz
          rcases List.mem_cons.mp hz with hz | hz
          · subst hz
            exact keyLt_asymm hlt
          · intro hzx
            exact hyall z hz (keyLt_trans hzx hlt)
        · rw [List.pairwise_cons]
          exact ⟨hyall, hsys⟩
    · obtain ⟨r, hr, hperm, hsorted⟩ := ih hys hsys
      refine ⟨y :: r, ?_, ?_, ?_⟩
      · simp [insertKeyedE, hcmp, hlt, hr]
      · exact (hperm.cons y).trans (List.Perm.swap x y ys)
      · rw [SortedKeyed, List.pairwise_cons]
        refine ⟨?_, hsorted⟩
        intro z hz
        rcases List.mem_cons.mp ((hperm.mem_iff).mp hz) with rfl | hz
        · exact hlt
        · exact hyall z hz

theorem sortKeyedAuxE_good (l acc : List ((Val × Val) × Val))
    (hacc : ∀ y ∈ acc, goodKey y.1) (hl : ∀ y ∈ l, goodKey y.1)
    (hs : SortedKeyed acc) :
    ∃ r, sortKeyedAuxE acc l = .ok r ∧ r.Perm (acc ++ l) ∧ SortedKeyed r := by
  induction l generalizing acc with
  | nil =>
    exact ⟨acc, rfl, by simp, hs⟩
  | cons x xs ih =>
    have hx : goodKey x.1 := hl x (List.mem_cons_self _ _)
    have hxs : ∀ z ∈ xs, goodKey z.1 := fun z hz => hl z (List.mem_cons_of_mem _ hz)
    obtain ⟨acc2, hins, hperm, hsorted⟩ := insertKeyedE_good x acc hx hacc hs
    have hacc2 : ∀ y ∈ acc2, goodKey y.1 := by
      intro y hy
      rcases List.mem_cons.mp ((hperm.mem_iff).mp hy) with rfl | hy
      · exact hx
      · exact hacc y hy
    obtain ⟨r, hrun, hperm2, hsorted2⟩ := ih acc2 hacc2 hxs hsorted
    refine ⟨r, ?_, ?_, hsorted2⟩
    · simp [sortKeyedAuxE, hins, hrun]
    · refine hperm2.trans (List.Perm.trans (hperm.append_right xs) ?_)
      exact (@List.perm_middle _ x acc xs).symm

theorem mapE_ok_forall {f : α → Except String β} {l : List α}
    (h : ∀ x ∈ l, ∃ y, f x = .ok y) :
    ∃ ys, mapE f l = .ok ys ∧ List.Forall₂ (fun x y => f x = .ok y) l ys := by
  induction l with
  | nil => exact ⟨[], rfl, List.Forall₂.nil⟩
  | cons x xs ih =>
    obtain ⟨y, hy⟩ := h x (List.mem_cons_self _ _)
    obtain ⟨ys, hys, hall⟩ := ih (fun z hz => h z (List.mem_cons_of_mem _ hz))
    exact ⟨y :: ys, by simp [mapE, hy, hys], List.Forall₂.cons hy hall⟩

theorem mapE_length {f : α → Except String β} {l : List α} {ys : List β}
    (h : mapE f l = .ok ys) : ys.length = l.length := by
  induction l generalizing ys with
  | nil =>
    simp [mapE] at h
    simp [← h]
  | cons x xs ih =>
    rw [mapE] at h
    rcases hx : f x with e | y <;> rw [hx] at h
    · exact absurd h (by simp)
    · rcases hxs : mapE f xs with e | zs <;> rw [hxs] at h
      · exact absurd h (by simp)
      · cases h
        simp [ih hxs]

theorem insertKeyedE_length {x : (Val × Val) × Val}
    {l r : List ((Val × Val) × Val)} (h : insertKeyedE x l = .ok r) :
    r.length = l.length + 1 := by
  induction l generalizing r with
  | nil =>
    rw [insertKeyedE] at h
    cases h
    rfl
  | cons y ys ih =>
    rw [insertKeyedE] at h
    rcases hc : tupLtE x.1 y.1 with e | b <;> rw [hc] at h
    · exact absurd h (by simp)
    · cases b
      · rcases hr : insertKeyedE x ys with e | r2 <;> rw [hr] at h
        · exact absurd h (by simp)
        · cases h
          simp [ih hr]
      · cases h
        simp

theorem sortKeyedAuxE_length {l acc r : List ((Val × Val) × Val)}
    (h : sortKeyedAuxE acc l = .ok r) : r.length = acc.length + l.length := by
  induction l generalizing acc with
  | nil =>
    rw [sortKeyedAuxE] at h
    cases h
    simp
  | cons x xs ih =>
    rw [sortKeyedAuxE] at h
    rcases hi : insertKeyedE x acc with e | acc2 <;> rw [hi] at h
    · exact absurd h (by simp)
    · have := ih h
      rw [this, insertKeyedE_length hi]
      simp only [List.length_cons]
      omega

theorem sortByKeyE_length {keyFn : Val → Except String (Val × Val)}
    {l out : List Val} (h : sortByKeyE keyFn l = .ok out) :
    out.length = l.length := by
  rw [sortByKeyE] at h
  rcases hm : mapE (fun r =>
      match keyFn r with
      | .error e => .error e
      | .ok k => .ok (k, r)) l with e | keyed
  · rw [hm] at h
    exact absurd h (by simp)
  · rw [hm] at h
    dsimp only at h
    rcases hs : sortKeyedAuxE [] keyed with e2 | sorted
    · rw [hs] at h
      exact absurd h (by simp)
    · rw [hs] at h
      dsimp only at h
      cases h
      simp [sortKeyedAuxE_length hs, mapE_length hm]

/-! ## Classifiers and well-formedness for the formatter -/

/-- Metadata value of a reference under a default (total view used to state
properties; agrees with the `.get` chain whenever that chain succeeds). -/
def metaValOf (r : Val) (k : String) (d : Val) : Val :=
  match r with
  | .vdict dd =>
    match lookupKey "metadata" dd with
    | some (.vdict m) => dictGetD m k d
    | some _ => d
    | none => d
  | _ => d

/-- The reference lands in the slide bucket (truthy `document_id`). -/
def slideB (r : Val) : Bool :=
  match r with
  | .vdict _ => (metaValOf r "document_id" vnone).truthy
  | _ => false

/-- The reference carries a truthy `lecture_id`. -/
def lecB (r : Val) : Bool :=
  match r with
  | .vdict _ => (metaValOf r "lecture_id" vnone).truthy
  | _ => false

/-- The reference lands in the lecture bucket (no document id, truthy
lecture id). -/
def lectureOnlyB (r : Val) : Bool :=
  !slideB r && lecB r

/-- The reference lands in the `other` bucket. -/
def otherB (r : Val) : Bool :=
  !slideB r && !lecB r

/-- The metadata field, if present on a dict reference, is itself a dict
(what the bucketing loop needs in order not to raise). -/
def MetaOkB (r : Val) : Bool :=
  match r with
  | .vdict d =>
    match lookupKey "metadata" d with
    | some (.vdict _) => true
    | some _ => false
    | none => true
  | _ => true

/-- The four known metadata fields, when present, carry well-typed values. -/
def wfMetaB (m : List (String × Val)) : Bool :=
  (match lookupKey "document_id" m with | some v => isStrB v | none => true) &&
  (match lookupKey "lecture_id" m with | some v => isStrB v | none => true) &&
  (match lookupKey "slide_number" m with | some v => isNumB v | none => true) &&
  (match lookupKey "start_seconds" m with | some v => isNumB v | none => true)

/-- Well-formed reference: non-dicts are always fine (they are normalized to
content dicts); a dict must have string content (if any) and dict metadata
(if any) with well-typed known fields. -/
def WFRefB (r : Val) : Bool :=
  match r with
  | .vdict d =>
    (match lookupKey "content" d with | some v => isStrB v | none => true) &&
    (match lookupKey "metadata" d with
     | some (.vdict m) => wfMetaB m
     | some _ => false
     | none => true)
  | _ => true

/-- Pure view of the slide sort key (agrees with `_extract_sort_key_slide`
on well-formed references). -/
def slideKeyOf (r : Val) : String × Rat :=
  (strOf (metaValOf r "document_id" (vstr "")),
   ratOfNum (metaValOf r "slide_number" (vint 0)))

/-- Pure view of the lecture sort key (agrees with
`_extract_sort_key_lecture` on well-formed references). -/
def lectureKeyOf (r : Val) : String × Rat :=
  (strOf (metaValOf r "lecture_id" (vstr "")),
   ratOfNum (metaValOf r "start_seconds" (vfloat 0)))

theorem WFRefB_metaOk {r : Val} (h : WFRefB r = true) : MetaOkB r = true := by
  cases r <;> simp_all [WFRefB, MetaOkB]
  rename_i d
  rcases hm : lookupKey "metadata" d with _ | m
  · simp
  · cases m <;> simp_all

theorem isSlideRef_eq {d : List (String × Val)} (h : MetaOkB (vdict d) = true) :
    isSlideRef (vdict d) = .ok (slideB (vdict d)) := by
  rw [MetaOkB] at h
  rcases hm : lookupKey "metadata" d with _ | m
  · simp [isSlideRef, getE, dictGetD, hm, slideB, metaValOf, lookupKey]
  · rw [hm] at h
    cases m <;>
      simp_all [isSlideRef, getE, dictGetD, hm, slideB, metaValOf, lookupKey]

theorem isLectureRef_eq {d : List (String × Val)} (h : MetaOkB (vdict d) = true) :
    isLectureRef (vdict d) = .ok (lecB (vdict d)) := by
  rw [MetaOkB] at h
  rcases hm : lookupKey "metadata" d with _ | m
  · simp [isLectureRef, getE, dictGetD, hm, lecB, metaValOf, lookupKey]
  · rw [hm] at h
    cases m <;>
      simp_all [isLectureRef, getE, dictGetD, hm, lecB, metaValOf, lookupKey]

theorem partitionRefsE_eq {refs : List Val}
    (h : ∀ r ∈ refs, MetaOkB r = true) :
    partitionRefsE refs =
      .ok (refs.filter slideB, refs.filter lectureOnlyB, refs.filter otherB) := by
  induction refs with
  | nil => rfl
  | cons r rest ih =>
    have hr : MetaOkB r = true := h r (List.mem_cons_self _ _)
    have htail := ih (fun z hz => h z (List.mem_cons_of_mem _ hz))
    cases r with
    | vdict d =>
      rw [partitionRefsE, isSlideRef_eq hr, isLectureRef_eq hr]
      cases hsb : slideB (vdict d) <;> cases hlb : lecB (vdict d) <;>
        simp [hsb, hlb, htail, List.filter, lectureOnlyB, otherB]
    | vstr s => simp [partitionRefsE, htail, List.filter, slideB, lecB,
        lectureOnlyB, otherB]
    | vint n => simp [partitionRefsE, htail, List.filter, slideB, lecB,
        lectureOnlyB, otherB]
    | vfloat q => simp [partitionRefsE, htail, List.filter, slideB, lecB,
        lectureOnlyB, otherB]
    | vnone => simp [partitionRefsE, htail, List.filter, slideB, lecB,
        lectureOnlyB, otherB]
    | vlist xs => simp [partitionRefsE, htail, List.filter, slideB, lecB,
        lectureOnlyB, otherB]

/-! ## Full specification of the keyed sort and the key extractors -/

theorem keyedForall_spec {keyFn : Val → Except String (Val × Val)}
    {pk : Val → String × Rat} :
    ∀ {l : List Val} {ys : List ((Val × Val) × Val)},
    List.Forall₂ (fun x y =>
      (match keyFn x with
       | .error e => .error e
       | .ok k => .ok (k, x) : Except String ((Val × Val) × Val)) = .ok y) l ys →
    (∀ r ∈ l, ∃ k, keyFn r = .ok k ∧ goodKey k ∧ pureKey k = pk r) →
    ys.map Prod.snd = l ∧ ∀ p ∈ ys, goodKey p.1 ∧ pureKey p.1 = pk p.2 := by
  intro l ys hall h
  induction hall with
  | nil => exact ⟨rfl, by simp⟩
  | cons hf htail ih =>
    rename_i x y xs ys2
    obtain ⟨k, hk, hgood, hpk⟩ := h x (List.mem_cons_self _ _)
    rw [hk] at hf
    cases hf
    obtain ⟨hmap, hels⟩ := ih (fun z hz => h z (List.mem_cons_of_mem _ hz))
    refine ⟨by simp [hmap], ?_⟩
    intro p hp
    rcases List.mem_cons.mp hp with rfl | hp
    · exact ⟨hgood, hpk⟩
    · exact hels p hp

theorem sortByKeyE_good (keyFn : Val → Except String (Val × Val))
    (pk : Val → String × Rat) (l : List Val)
    (h : ∀ r ∈ l, ∃ k, keyFn r = .ok k ∧ goodKey k ∧ pureKey k = pk r) :
    ∃ out, sortByKeyE keyFn l = .ok out ∧ out.Perm l ∧
      out.Pairwise (fun a b => ¬ keyLt (pk b) (pk a)) := by
  have hmap : ∀ x ∈ l, ∃ y,
      (match keyFn x with
       | .error e => .error e
       | .ok k => .ok (k, x) : Except String ((Val × Val) × Val)) = .ok y := by
    intro x hx
    obtain ⟨k, hk, _, _⟩ := h x hx
    exact ⟨(k, x), by rw [hk]⟩
  obtain ⟨ys, hys, hall⟩ := mapE_ok_forall hmap
  obtain ⟨hsnd, hels⟩ := keyedForall_spec hall h
  have hgoodys : ∀ p ∈ ys, goodKey p.1 := fun p hp => (hels p hp).1
  obtain ⟨sorted, hs, hperm, hsorted⟩ :=
    sortKeyedAuxE_good ys [] (by simp) hgoodys (by simp [SortedKeyed])
  refine ⟨sorted.map Prod.snd, ?_, ?_, ?_⟩
  · rw [sortByKeyE, hys]
    dsimp only
    rw [hs]
  · have := hperm.map Prod.snd
    simpa [hsnd] using this
  · rw [List.pairwise_map]
    have hmem : ∀ p ∈ sorted, goodKey p.1 ∧ pureKey p.1 = pk p.2 := by
      intro p hp
      apply hels
      have := (hperm.mem_iff).mp hp
      simpa using this
    refine List.Pairwise.imp_of_mem ?_ hsorted
    intro a b ha hb hr
    rw [(hmem a ha).2, (hmem b hb).2] at hr
    exact hr

theorem extract_sort_key_slide_wf {d : List (String × Val)}
    (h : WFRefB (vdict d) = true) :
    ∃ k, extract_sort_key_slide (vdict d) = .ok k ∧ goodKey k ∧
      pureKey k = slideKeyOf (vdict d) := by
  rw [WFRefB, Bool.and_eq_true] at h
  obtain ⟨-, hm⟩ := h
  rcases hmd : lookupKey "metadata" d with _ | m
  · refine ⟨(vstr "", vint 0), ?_, ⟨rfl, rfl⟩, ?_⟩
    · simp [extract_sort_key_slide, getE, dictGetD, hmd, lookupKey]
    · simp [pureKey, slideKeyOf, metaValOf, hmd, strOf, ratOfNum]
  · rw [hmd] at hm
    cases m with
    | vdict mm =>
      simp only [wfMetaB, Bool.and_eq_true] at hm
      obtain ⟨⟨⟨hdoc, -⟩, hsl⟩, -⟩ := hm
      have hget : extract_sort_key_slide (vdict d) =
          .ok (dictGetD mm "document_id" (vstr ""),
               dictGetD mm "slide_number" (vint 0)) := by
        simp [extract_sort_key_slide, getE, dictGetD, hmd]
      refine ⟨_, hget, ⟨?_, ?_⟩, ?_⟩
      · rcases hv : lookupKey "document_id" mm with _ | v
        · simp [dictGetD, hv, isStrB]
        · rw [hv] at hdoc
          simpa [dictGetD, hv] using hdoc
      · rcases hv : lookupKey "slide_number" mm with _ | v
        · simp [dictGetD, hv, isNumB]
        · rw [hv] at hsl
          simpa [dictGetD, hv] using hsl
      · simp [pureKey, slideKeyOf, metaValOf, hmd]
    | vstr s => simp at hm
    | vint n => simp at hm
    | vfloat q => simp at hm
    | vnone => simp at hm
    | vlist xs => simp at hm

theorem extract_sort_key_lecture_wf {d : List (String × Val)}
    (h : WFRefB (vdict d) = true) :
    ∃ k, extract_sort_key_lecture (vdict d) = .ok k ∧ goodKey k ∧
      pureKey k = lectureKeyOf (vdict d) := by
  rw [WFRefB, Bool.and_eq_true] at h
  obtain ⟨-, hm⟩ := h
  rcases hmd : lookupKey "metadata" d with _ | m
  · refine ⟨(vstr "", vfloat 0), ?_, ⟨rfl, rfl⟩, ?_⟩
    · simp [extract_sort_key_lecture, getE, dictGetD, hmd, lookupKey]
    · simp [pureKey, lectureKeyOf, metaValOf, hmd, strOf, ratOfNum]
  · rw [hmd] at hm
    cases m with
    | vdict mm =>
      simp only [wfMetaB, Bool.and_eq_true] at hm
      obtain ⟨⟨⟨-, hlec⟩, -⟩, hst⟩ := hm
      have hget : extract_sort_key_lecture (vdict d) =
          .ok (dictGetD mm "lecture_id" (vstr ""),
               dictGetD mm "start_seconds" (vfloat 0)) := by
        simp [extract_sort_key_lecture, getE, dictGetD, hmd]
      refine ⟨_, hget, ⟨?_, ?_⟩, ?_⟩
      · rcases hv : lookupKey "lecture_id" mm with _ | v
        · simp [dictGetD, hv, isStrB]
        · rw [hv] at hlec
          simpa [dictGetD, hv] using hlec
      · rcases hv : lookupKey "start_seconds" mm with _ | v
        · simp [dictGetD, hv, isNumB]
        · rw [hv] at hst
          simpa [dictGetD, hv] using hst
      · simp [pureKey, lectureKeyOf, metaValOf, hmd]
    | vstr s => simp at hm
    | vint n => simp at hm
    | vfloat q => simp at hm
    | vnone => simp at hm
    | vlist xs => simp at hm

/-! ## Behaviour of `_order_chunks` in chronological mode -/

theorem order_chunks_chrono_spec (refs : List Val)
    (h : ∀ r ∈ refs, WFRefB r = true) :
    ∃ s l, order_chunks refs .chronological =
        .ok (s ++ l ++ refs.filter otherB) ∧
      s.Perm (refs.filter slideB) ∧ l.Perm (refs.filter lectureOnlyB) ∧
      s.Pairwise (fun a b => ¬ keyLt (slideKeyOf b) (slideKeyOf a)) ∧
      l.Pairwise (fun a b => ¬ keyLt (lectureKeyOf b) (lectureKeyOf a)) := by
  have hmeta : ∀ r ∈ refs, MetaOkB r = true := fun r hr => WFRefB_metaOk (h r hr)
  have hpart := partitionRefsE_eq hmeta
  have hslidewf : ∀ r ∈ refs.filter slideB,
      ∃ k, extract_sort_key_slide r = .ok k ∧ goodKey k ∧
        pureKey k = slideKeyOf r := by
    intro r hr
    have hmem := List.mem_of_mem_filter hr
    have hsl := List.of_mem_filter hr
    have hwf := h r hmem
    cases r <;> simp [slideB] at hsl
    exact extract_sort_key_slide_wf hwf
  have hlecwf : ∀ r ∈ refs.filter lectureOnlyB,
      ∃ k, extract_sort_key_lecture r = .ok k ∧ goodKey k ∧
        pureKey k = lectureKeyOf r := by
    intro r hr
    have hmem := List.mem_of_mem_filter hr
    have hsl := List.of_mem_filter hr
    have hwf := h r hmem
    cases r <;> simp [lectureOnlyB, lecB, slideB] at hsl
    exact extract_sort_key_lecture_wf hwf
  obtain ⟨s, hs_eq, hs_perm, hs_pw⟩ :=
    sortByKeyE_good extract_sort_key_slide slideKeyOf (refs.filter slideB) hslidewf
  obtain ⟨l, hl_eq, hl_perm, hl_pw⟩ :=
    sortByKeyE_good extract_sort_key_lecture lectureKeyOf
      (refs.filter lectureOnlyB) hlecwf
  refine ⟨s, l, ?_, hs_perm, hl_perm, hs_pw, hl_pw⟩
  rw [order_chunks, hpart]
  dsimp only
  rw [hs_eq]
  dsimp only
  rw [hl_eq]

/-! ## Totality of the formatter on well-formed input -/

theorem normalizeRef_dict (r : Val) : ∃ d, normalizeRef r = vdict d := by
  cases r <;> exact ⟨_, rfl⟩

theorem normalizeRef_wf {r : Val} (h : WFRefB r = true) :
    WFRefB (normalizeRef r) = true := by
  cases r <;> simp_all [normalizeRef, WFRefB, lookupKey, isStrB]

theorem format_timestamp_num {v : Val} (h : isNumB v = true) :
    ∃ s, format_timestamp v = .ok s := by
  cases v with
  | vint n =>
    rw [format_timestamp, pyIntE]
    dsimp only
    split <;> exact ⟨_, rfl⟩
  | vfloat q =>
    rw [format_timestamp, pyIntE]
    dsimp only
    split <;> exact ⟨_, rfl⟩
  | vstr s => simp [isNumB] at h
  | vnone => simp [isNumB] at h
  | vlist xs => simp [isNumB] at h
  | vdict d => simp [isNumB] at h

theorem get_source_hint_wf {d : List (String × Val)}
    (h : WFRefB (vdict d) = true) :
    ∃ s, get_source_hint (vdict d) = .ok s := by
  simp only [WFRefB, Bool.and_eq_true] at h
  obtain ⟨-, hm⟩ := h
  rcases hmd : lookupKey "metadata" d with _ | m
  · exact ⟨"Source", by simp [get_source_hint, getE, dictGetD, hmd, lookupKey,
      truthy]⟩
  · rw [hmd] at hm
    cases m with
    | vdict mm =>
      simp only [wfMetaB, Bool.and_eq_true] at hm
      obtain ⟨⟨⟨-, -⟩, -⟩, hst⟩ := hm
      rw [get_source_hint]
      simp only [getE, dictGetD, hmd, Option.getD_some]
      by_cases hdoc : (dictGetD mm "document_id" vnone).truthy = true
      · rw [dictGetD] at hdoc
        simp [dictGetD, hdoc]
      · simp only [dictGetD] at hdoc ⊢
        rw [Bool.not_eq_true] at hdoc
        rw [hdoc]
        simp only [Bool.false_eq_true, if_false]
        by_cases hlec : ((lookupKey "lecture_id" mm).getD vnone).truthy = true
        · rw [hlec]
          simp only [if_true]
          have hnum : isNumB ((lookupKey "start_seconds" mm).getD (vint 0)) = true := by
            rcases hv : lookupKey "start_seconds" mm with _ | v
            · simp [isNumB]
            · rw [hv] at hst
              simpa using hst
          obtain ⟨ts, hts⟩ := format_timestamp_num hnum
          rw [hts]
          exact ⟨_, rfl⟩
        · rw [Bool.not_eq_true] at hlec
          rw [hlec]
          simp only [Bool.false_eq_true, if_false]
          exact ⟨_, rfl⟩
    | vstr s => simp at hm
    | vint n => simp at hm
    | vfloat q => simp at hm
    | vnone => simp at hm
    | vlist xs => simp at hm

theorem modelContextLine_wf (i : Nat) {d : List (String × Val)}
    (h : WFRefB (vdict d) = true) :
    ∃ o, modelContextLine i (vdict d) = .ok o := by
  have hc : ∃ s, dictGetD d "content" (vstr "") = vstr s := by
    simp only [WFRefB, Bool.and_eq_true] at h
    obtain ⟨hc, -⟩ := h
    rcases hv : lookupKey "content" d with _ | v
    · exact ⟨"", by simp [dictGetD, hv]⟩
    · rw [hv] at hc
      cases v with
      | vstr t => exact ⟨t, by simp [dictGetD, hv]⟩
      | vint n => exact absurd hc (by simp [isStrB])
      | vfloat q => exact absurd hc (by simp [isStrB])
      | vnone => exact absurd hc (by simp [isStrB])
      | vlist xs => exact absurd hc (by simp [isStrB])
      | vdict dd => exact absurd hc (by simp [isStrB])
  obtain ⟨s, hs⟩ := hc
  obtain ⟨hint, hh⟩ := get_source_hint_wf h
  rw [modelContextLine]
  simp only [getE, hs, hh, pyStripE]
  split
  all_goals first
    | exact ⟨_, rfl⟩
    | (intro t ht; cases ht)

theorem modelContextLines_wf {l : List Val}
    (h : ∀ r ∈ l, WFRefB r = true ∧ ∃ d, r = vdict d) :
    ∀ i, ∃ ls, modelContextLines i l = .ok ls := by
  induction l with
  | nil => exact fun i => ⟨[], rfl⟩
  | cons r rest ih =>
    intro i
    obtain ⟨hwf, d, rfl⟩ := h r (List.mem_cons_self _ _)
    obtain ⟨o, ho⟩ := modelContextLine_wf i hwf
    obtain ⟨ls, hls⟩ := ih (fun z hz => h z (List.mem_cons_of_mem _ hz)) (i + 1)
    rw [modelContextLines, ho, hls]
    cases o <;> exact ⟨_, rfl⟩

theorem build_model_context_wf {l : List Val}
    (h : ∀ r ∈ l, WFRefB r = true ∧ ∃ d, r = vdict d) :
    ∃ s, build_model_context l = .ok s := by
  obtain ⟨ls, hls⟩ := modelContextLines_wf h 1
  rw [build_model_context, hls]
  exact ⟨_, rfl⟩

/-! ## Length preservation through ordering -/

theorem partitionRefsE_length :
    ∀ {refs s l o : List Val}, partitionRefsE refs = .ok (s, l, o) →
    s.length + l.length + o.length = refs.length := by
  intro refs
  induction refs with
  | nil =>
    intro s l o h
    rw [partitionRefsE] at h
    cases h
    rfl
  | cons r rest ih =>
    intro s l o h
    cases r with
    | vdict d =>
      rw [partitionRefsE] at h
      rcases his : isSlideRef (vdict d) with e | b <;> rw [his] at h
      · exact absurd h (by simp)
      · cases b with
        | true =>
          rcases hp : partitionRefsE rest with e | tri <;> rw [hp] at h
          · exact absurd h (by simp)
          · obtain ⟨s2, l2, o2⟩ := tri
            cases h
            have := ih hp
            simp only [List.length_cons]
            omega
        | false =>
          rcases hil : isLectureRef (vdict d) with e | b2 <;> rw [hil] at h
          · exact absurd h (by simp)
          · cases b2 with
            | true =>
              rcases hp : partitionRefsE rest with e | tri <;> rw [hp] at h
              · exact absurd h (by simp)
              · obtain ⟨s2, l2, o2⟩ := tri
                cases h
                have := ih hp
                simp only [List.length_cons]
                omega
            | false =>
              rcases hp : partitionRefsE rest with e | tri <;> rw [hp] at h
              · exact absurd h (by simp)
              · obtain ⟨s2, l2, o2⟩ := tri
                cases h
                have := ih hp
                simp only [List.length_cons]
                omega
    | vstr a =>
      simp only [partitionRefsE] at h
      rcases hp : partitionRefsE rest with e | tri <;> rw [hp] at h
      · exact absurd h (by simp)
      · obtain ⟨s2, l2, o2⟩ := tri
        cases h
        have := ih hp
        simp only [List.length_cons]
        omega
    | vint a =>
      simp only [partitionRefsE] at h
      rcases hp : partitionRefsE rest with e | tri <;> rw [hp] at h
      · exact absurd h (by simp)
      · obtain ⟨s2, l2, o2⟩ := tri
        cases h
        have := ih hp
        simp only [List.length_cons]
        omega
    | vfloat a =>
      simp only [partitionRefsE] at h
      rcases hp : partitionRefsE rest with e | tri <;> rw [hp] at h
      · exact absurd h (by simp)
      · obtain ⟨s2, l2, o2⟩ := tri
        cases h
        have := ih hp
        simp only [List.length_cons]
        omega
    | vnone =>
      simp only [partitionRefsE] at h
      rcases hp : partitionRefsE rest with e | tri <;> rw [hp] at h
      · exact absurd h (by simp)
      · obtain ⟨s2, l2, o2⟩ := tri
        cases h
        have := ih hp
        simp only [List.length_cons]
        omega
    | vlist a =>
      simp only [partitionRefsE] at h
      rcases hp : partitionRefsE rest with e | tri <;> rw [hp] at h
      · exact absurd h (by simp)
      · obtain ⟨s2, l2, o2⟩ := tri
        cases h
        have := ih hp
        simp only [List.length_cons]
        omega

theorem order_chunks_length {refs out : List Val} {mode : OrderBy}
    (h : order_chunks refs mode = .ok out) : out.length = refs.length := by
  cases mode with
  | relevance =>
    rw [order_chunks] at h
    cases h
    rfl
  | chronological =>
    rw [order_chunks] at h
    rcases hp : partitionRefsE refs with e | tri <;> rw [hp] at h
    · exact absurd h (by simp)
    · obtain ⟨s, l, o⟩ := tri
      dsimp only at h
      rcases hs : sortByKeyE extract_sort_key_slide s with e | s2 <;> rw [hs] at h
      · exact absurd h (by simp)
      · dsimp only at h
        rcases hl : sortByKeyE extract_sort_key_lecture l with e | l2 <;>
          rw [hl] at h
        · exact absurd h (by simp)
        · cases h
          have h1 := sortByKeyE_length hs
          have h2 := sortByKeyE_length hl
          have h3 := partitionRefsE_length hp
          simp only [List.length_append]
          omega

/-! ## Chunk numbering -/

/-- The `chunk_number` entry of a client source (total view). -/
def chunkNumOf (r : Val) : Val :=
  match r with
  | .vdict d => dictGetD d "chunk_number" vnone
  | _ => vnone

theorem lookupKey_dictSet_self (d : List (String × Val)) (k : String) (x : Val) :
    lookupKey k (dictSet d k x) = some x := by
  induction d with
  | nil => simp [dictSet, lookupKey]
  | cons e rest ih =>
    obtain ⟨k', v⟩ := e
    by_cases hk : k' = k
    · simp [dictSet, hk, lookupKey]
    · simp [dictSet, hk, lookupKey, ih]

theorem chunkNumOf_enrich (i : Nat) (r : Val) :
    chunkNumOf (enrichClientSource i r) = vint (i : Int) := by
  cases r <;>
    simp [enrichClientSource, chunkNumOf, dictGetD, lookupKey,
      lookupKey_dictSet_self]

theorem enrich_chunkNums (l : List Val) :
    ∀ i, ((l.enumFrom i).map
        (fun p => chunkNumOf (enrichClientSource p.1 p.2))) =
      (List.range' i l.length).map (fun n => vint (n : Int)) := by
  induction l with
  | nil => intro i; rfl
  | cons r rest ih =>
    intro i
    show chunkNumOf (enrichClientSource i r) ::
        (rest.enumFrom (i + 1)).map
          (fun p => chunkNumOf (enrichClientSource p.1 p.2)) =
      vint (i : Int) ::
        (List.range' (i + 1) rest.length).map (fun n => vint (n : Int))
    rw [chunkNumOf_enrich, ih (i + 1)]

theorem chunkMap_keys (l : List Val) :
    ∀ i, ((l.enumFrom i).map (fun p => (chunkMapEntry p.1 p.2).1)) =
      List.range' i l.length := by
  induction l with
  | nil => intro i; rfl
  | cons r rest ih =>
    intro i
    have hfst : (chunkMapEntry i r).1 = i := by
      cases r <;> rfl
    show (chunkMapEntry i r).1 ::
        (rest.enumFrom (i + 1)).map (fun p => (chunkMapEntry p.1 p.2).1) =
      i :: List.range' (i + 1) rest.length
    rw [hfst, ih (i + 1)]

/-- C5: for every input list and either ordering mode, whenever the formatter
returns, the chunk numbers it assigns in `client_sources` (and the keys of
`chunk_map`) are exactly the gap-free sequence 1, 2, ..., n where n is the
number of input references. -/
theorem formatter_chunk_numbers_gapfree
    (refs : List Val) (mode : OrderBy) (out : FormattedContext)
    (h : format_retrieval_context refs mode = .ok out) :
    out.client_sources.map chunkNumOf =
      (List.range' 1 refs.length).map (fun n => vint (n : Int)) ∧
    out.chunk_map.map Prod.fst = List.range' 1 refs.length := by
  rw [format_retrieval_context] at h
  rcases ho : order_chunks (refs.map normalizeRef) mode with e | ordered <;>
    rw [ho] at h
  · exact absurd h (by simp)
  · dsimp only at h
    rcases hb : build_model_context ordered with e | mc <;> rw [hb] at h
    · exact absurd h (by simp)
    · cases h
      have hlen : ordered.length = refs.length := by
        rw [order_chunks_length ho, List.length_map]
      constructor
      · show (enrich_client_sources ordered).map chunkNumOf = _
        rw [enrich_client_sources, List.map_map]
        have := enrich_chunkNums ordered 1
        rw [← hlen]
        exact this
      · show (build_chunk_map ordered).map Prod.fst = _
        rw [build_chunk_map, List.map_map]
        have := chunkMap_keys ordered 1
        rw [← hlen]
        exact this

/-! ## Totality of the full formatter on well-formed references -/

theorem get_source_hint_other {d : List (String × Val)}
    (hmok : MetaOkB (vdict d) = true)
    (hs : slideB (vdict d) = false) (hl : lecB (vdict d) = false) :
    get_source_hint (vdict d) = .ok "Source" := by
  rw [get_source_hint]
  rw [MetaOkB] at hmok
  rw [slideB, metaValOf] at hs
  rw [lecB, metaValOf] at hl
  rcases hmd : lookupKey "metadata" d with _ | m
  · simp [getE, dictGetD, hmd, lookupKey, truthy]
  · rw [hmd] at hmok hs hl
    cases m with
    | vdict mm =>
      dsimp only at hs hl
      simp only [dictGetD] at hs hl
      simp [getE, dictGetD, hmd, hs, hl]
    | vstr a => simp at hmok
    | vint a => simp at hmok
    | vfloat a => simp at hmok
    | vnone => simp at hmok
    | vlist a => simp at hmok

theorem format_retrieval_context_wf (refs : List Val) (mode : OrderBy)
    (h : ∀ r ∈ refs, WFRefB r = true) :
    ∃ out, format_retrieval_context refs mode = .ok out := by
  have hnorm : ∀ r ∈ refs.map normalizeRef,
      WFRefB r = true ∧ ∃ d, r = vdict d := by
    intro r hr
    obtain ⟨x, hx, rfl⟩ := List.mem_map.mp hr
    exact ⟨normalizeRef_wf (h x hx), normalizeRef_dict x⟩
  cases mode with
  | relevance =>
    obtain ⟨mc, hmc⟩ := build_model_context_wf hnorm
    have ho : order_chunks (refs.map normalizeRef) .relevance =
        .ok (refs.map normalizeRef) := rfl
    rw [format_retrieval_context, ho]
    dsimp only
    rw [hmc]
    exact ⟨_, rfl⟩
  | chronological =>
    obtain ⟨s, l, ho, hsp, hlp, -, -⟩ :=
      order_chunks_chrono_spec (refs.map normalizeRef)
        (fun r hr => (hnorm r hr).1)
    have hmem : ∀ r ∈ s ++ l ++ (refs.map normalizeRef).filter otherB,
        WFRefB r = true ∧ ∃ d, r = vdict d := by
      intro r hr
      rcases List.mem_append.mp hr with hr | hr
      · rcases List.mem_append.mp hr with hr | hr
        · exact hnorm r (List.mem_of_mem_filter ((hsp.mem_iff).mp hr))
        · exact hnorm r (List.mem_of_mem_filter ((hlp.mem_iff).mp hr))
      · exact hnorm r (List.mem_of_mem_filter hr)
    obtain ⟨mc, hmc⟩ := build_model_context_wf hmem
    rw [format_retrieval_context, ho]
    dsimp only
    rw [hmc]
    exact ⟨_, rfl⟩

/-- C4 (amended): `format_retrieval_context` never raises for references that
are well-typed where the code touches them — bare strings or other non-dicts,
and dicts whose `content` (if present) is a string and whose `metadata` (if
present) is a dict with string ids and numeric slide/start fields, fields
being allowed to be missing or absent — in either ordering mode; and a
well-formed dict reference without truthy slide/lecture metadata gets the
generic "Source" hint and is routed to the `other` bucket.  (As stated, with
wrongly-typed metadata fields included, the claim is refuted by the
counterexample below.) -/
theorem formatter_total_on_wellformed :
    (∀ (refs : List Val) (mode : OrderBy), (∀ r ∈ refs, WFRefB r = true) →
      ∃ out, format_retrieval_context refs mode = .ok out) ∧
    (∀ d : List (String × Val), MetaOkB (vdict d) = true →
      slideB (vdict d) = false → lecB (vdict d) = false →
      get_source_hint (vdict d) = .ok "Source" ∧
      partitionRefsE [vdict d] = .ok ([], [], [vdict d])) := by
  constructor
  · exact format_retrieval_context_wf
  · intro d hmok hs hl
    refine ⟨get_source_hint_other hmok hs hl, ?_⟩
    have := @partitionRefsE_eq [vdict d] (by
      intro r hr
      rcases List.mem_singleton.mp hr with rfl
      exact hmok)
    rw [this]
    simp [List.filter, hs, hl, lectureOnlyB, otherB]

/-- C4 counterexample: `format_retrieval_context` does raise on malformed
input, in both ordering modes.  `ref.get("metadata", \x7b\x7d)` returns a
present non-dict metadata value unchanged — the default only covers an
absent key — so the subsequent `meta.get` raises `AttributeError` for the
string `"oops"` and even for the falsy `None` (in `_order_chunks` under
chronological ordering, in `_get_source_hint` under relevance ordering);
and a present non-string `content` value raises `AttributeError` at
`.strip()` in `_build_model_context`.  So "never raises, for every input
list of references (... missing, absent, or wrongly-typed metadata
fields ...)" is false on the code. -/
theorem formatter_raises_on_mistyped_metadata :
    (format_retrieval_context [vdict [("metadata", vstr "oops")]]
        .chronological =
          .error "AttributeError: object has no attribute get" ∧
      format_retrieval_context [vdict [("metadata", vstr "oops")]]
        .relevance = .error "AttributeError: object has no attribute get") ∧
    (format_retrieval_context [vdict [("metadata", vnone)]] .chronological =
          .error "AttributeError: object has no attribute get" ∧
      format_retrieval_context [vdict [("metadata", vnone)]] .relevance =
          .error "AttributeError: object has no attribute get") ∧
    (format_retrieval_context [vdict [("content", vint 5)]] .chronological =
          .error "AttributeError: object has no attribute strip" ∧
      format_retrieval_context [vdict [("content", vint 5)]] .relevance =
          .error "AttributeError: object has no attribute strip") :=
  ⟨⟨rfl, rfl⟩, ⟨rfl, rfl⟩, rfl, rfl⟩

/-- C4 witness: the totality theorem applied to a concrete well-formed input
(a bare string plus a plain content dict). -/
theorem formatter_total_on_wellformed_witness :
    ∃ out, format_retrieval_context
      [vstr "hi", vdict [("content", vstr "x")]] .relevance = .ok out :=
  formatter_total_on_wellformed.1
    [vstr "hi", vdict [("content", vstr "x")]] .relevance (by decide)

/-! ## Scenario C: chronological formatting -/

/-- The slide reference of Scenario C. -/
def slideRefC : Val :=
  vdict [("content", vstr "slide text"),
         ("metadata", vdict [("document_id", vstr "D1"),
                             ("slide_number", vint 3)])]

/-- The lecture reference of Scenario C. -/
def lectureRefC : Val :=
  vdict [("content", vstr "lecture text"),
         ("metadata", vdict [("lecture_id", vstr "L1"),
                             ("start_seconds", vint 90)])]

/-- The formatted context the code produces on the Scenario C input. -/
def scenarioCtx : FormattedContext :=
  { model_context :=
      "[1] (Slide 3) slide text\n\n[2] (Lecture @1:30) lecture text"
    client_sources :=
      [vdict [("content", vstr "slide text"),
              ("metadata", vdict [("document_id", vstr "D1"),
                                  ("slide_number", vint 3)]),
              ("chunk_number", vint 1)],
       vdict [("content", vstr "lecture text"),
              ("metadata", vdict [("lecture_id", vstr "L1"),
                                  ("start_seconds", vint 90)]),
              ("chunk_number", vint 2)]]
    chunk_map := [(1, slideRefC), (2, lectureRefC)] }

/-- C6: in chronological mode `_order_chunks` partitions references into the
slide bucket (truthy document id), the lecture bucket (truthy lecture id, no
document id) and `other`, sorts the slide bucket by `(document_id,
slide_number)` and the lecture bucket by `(lecture_id, start_seconds)`
ascending, and concatenates slide ++ lecture ++ other; and on the Scenario C
input (slide `document_id="D1"`, `slide_number=3`; lecture
`lecture_id="L1"`, `start_seconds=90`) the formatter produces exactly the
two-line model context `"[1] (Slide 3) ... [2] (Lecture @1:30) ..."` and the
chunk map `{1 ↦ slide reference, 2 ↦ lecture reference}`. -/
theorem chronological_partition_sort :
    (∀ refs : List Val, (∀ r ∈ refs, WFRefB r = true) →
      ∃ s l, order_chunks refs .chronological =
          .ok (s ++ l ++ refs.filter otherB) ∧
        s.Perm (refs.filter slideB) ∧ l.Perm (refs.filter lectureOnlyB) ∧
        s.Pairwise (fun a b => ¬ keyLt (slideKeyOf b) (slideKeyOf a)) ∧
        l.Pairwise (fun a b => ¬ keyLt (lectureKeyOf b) (lectureKeyOf a))) ∧
    (∃ ctx, format_retrieval_context [slideRefC, lectureRefC]
        .chronological = .ok ctx ∧
      ctx.model_context =
        "[1] (Slide 3) slide text\n\n[2] (Lecture @1:30) lecture text" ∧
      ctx.chunk_map = [(1, slideRefC), (2, lectureRefC)]) := by
  constructor
  · exact order_chunks_chrono_spec
  · exact ⟨scenarioCtx, rfl, rfl, rfl⟩

/-- C6 witness: the general ordering statement applied to the concrete
Scenario C references (in shuffled input order so the sort actually moves
the slide ahead of the lecture). -/
theorem chronological_partition_sort_witness :
    ∃ s l, order_chunks [lectureRefC, slideRefC] .chronological =
        .ok (s ++ l ++ ([lectureRefC, slideRefC].filter otherB)) ∧
      s.Perm ([lectureRefC, slideRefC].filter slideB) ∧
      l.Perm ([lectureRefC, slideRefC].filter lectureOnlyB) ∧
      s.Pairwise (fun a b => ¬ keyLt (slideKeyOf b) (slideKeyOf a)) ∧
      l.Pairwise (fun a b => ¬ keyLt (lectureKeyOf b) (lectureKeyOf a)) :=
  chronological_partition_sort.1 [lectureRefC, slideRefC] (by decide)

/-- C5 witness: the gap-free numbering theorem applied to the concrete
Scenario C run of the formatter. -/
theorem formatter_chunk_numbers_gapfree_witness :
    scenarioCtx.client_sources.map chunkNumOf =
      (List.range' 1 2).map (fun n => vint (n : Int)) ∧
    scenarioCtx.chunk_map.map Prod.fst = List.range' 1 2 :=
  formatter_chunk_numbers_gapfree [slideRefC, lectureRefC] .chronological
    scenarioCtx rfl

/-! ## Protocol adapter (`app/adapters/vercel_stream.py`)

`uuid4()` is modelled as a fresh-name supply threaded through the adapter: a
counter `uuid_ctr` from which `uuidStr n` draws pairwise-distinct
identifiers.  Slide/lecture source ids never consult the supply, matching
the code where only `uuid4()` call sites do. -/

/-- Fresh identifier `n` of the `uuid4()` supply. -/
def uuidStr (n : Nat) : String :=
  "uuid-" ++ toString n

/-- Dataclass `RAGSource`; optional fields keep their dynamic Python values
(`vnone` = `None`). -/
structure RAGSource where
  source_id : String
  source_type : String
  content_preview : String
  chunk_number : Val := vnone
  document_id : Val := vnone
  slide_number : Val := vnone
  lecture_id : Val := vnone
  start_seconds : Val := vnone
  end_seconds : Val := vnone
  course_id : Val := vnone
  owner_id : Val := vnone
  title : Val := vnone

/-- `v is not None`. -/
def notNone : Val → Bool
  | vnone => false
  | _ => true

/-- `RAGSource.to_dict`: dataclass-field order, `None` values excluded. -/
def RAGSource.to_dict (s : RAGSource) : List (String × Val) :=
  ([("source_id", vstr s.source_id),
    ("source_type", vstr s.source_type),
    ("content_preview", vstr s.content_preview),
    ("chunk_number", s.chunk_number),
    ("document_id", s.document_id),
    ("slide_number", s.slide_number),
    ("lecture_id", s.lecture_id),
    ("start_seconds", s.start_seconds),
    ("end_seconds", s.end_seconds),
    ("course_id", s.course_id),
    ("owner_id", s.owner_id),
    ("title", s.title)]).filter (fun p => notNone p.2)

/-- One iteration of the `extract_sources_from_references` loop (`idx` is the
1-based `enumerate` position, `ctr` the uuid supply). -/
def extractOne (ctr : Nat) (idx : Nat) (ref : Val) :
    Except String (RAGSource × Nat) :=
  match ref with
  | vstr s =>
    .ok ({ source_id := uuidStr ctr
           source_type := "unknown"
           content_preview := if s = "" then "" else s.take 200
           chunk_number := vint (idx : Int) }, ctr + 1)
  | vdict rd =>
    let metadata := dictGetD rd "metadata" (vdict [])
    let content := dictGetD rd "content" (vstr "")
    let chunk_number := dictGetD rd "chunk_number" (vint (idx : Int))
    match metadata with
    | vdict md =>
      let fields : RAGSource := {
        source_id := ""
        source_type := ""
        content_preview := ""
        chunk_number := chunk_number
        document_id := dictGetD md "document_id" vnone
        slide_number := dictGetD md "slide_number" vnone
        lecture_id := dictGetD md "lecture_id" vnone
        start_seconds := dictGetD md "start_seconds" vnone
        end_seconds := dictGetD md "end_seconds" vnone
        course_id := dictGetD md "course_id" vnone
        owner_id := dictGetD md "owner_id" vnone
        title := dictGetD rd "name" vnone }
      let docId := dictGetD md "document_id" vnone
      if docId.truthy then
        match (if content.truthy then pySliceE content 200 else .ok "") with
        | .error e => .error e
        | .ok preview =>
          .ok ({ fields with
                 source_id := "slide-" ++ docId.pyStr ++ "-" ++
                   (dictGetD md "slide_number" (vint 0)).pyStr
                 source_type := "slide"
                 content_preview := preview }, ctr)
      else
        let lecId := dictGetD md "lecture_id" vnone
        if lecId.truthy then
          match pyIntE (dictGetD md "start_seconds" (vint 0)) with
          | .error e => .error e
          | .ok startSec =>
            match (if content.truthy then pySliceE content 200 else .ok "") with
            | .error e => .error e
            | .ok preview =>
              .ok ({ fields with
                     source_id := "lecture-" ++ lecId.pyStr ++ "-" ++
                       toString startSec
                     source_type := "lecture"
                     content_preview := preview }, ctr)
        else
          match (if content.truthy then pySliceE content 200 else .ok "") with
          | .error e => .error e
          | .ok preview =>
            .ok ({ fields with
                   source_id := uuidStr ctr
                   source_type := "unknown"
                   content_preview := preview }, ctr + 1)
    | _ => .error "AttributeError: object has no attribute get"
  | _ => .error "AttributeError: object has no attribute get"

/-- The `enumerate(references, start=1)` loop of
`extract_sources_from_references`. -/
def extractList (ctr : Nat) (idx : Nat) :
    List Val → Except String (List RAGSource × Nat)
  | [] => .ok ([], ctr)
  | r :: rest =>
    match extractOne ctr idx r with
    | .error e => .error e
    | .ok (s, ctr2) =>
      match extractList ctr2 (idx + 1) rest with
      | .error e => .error e
      | .ok (ss, ctr3) => .ok (s :: ss, ctr3)

/-- `extract_sources_from_references` (`none`/empty short-circuits to `[]`). -/
def extract_sources_from_references (ctr : Nat)
    (references : Option (List Val)) : Except String (List RAGSource × Nat) :=
  match references with
  | none => .ok ([], ctr)
  | some [] => .ok ([], ctr)
  | some refs => extractList ctr 1 refs

/-- Agno `MessageReferences`-like container: `references` models the
attribute (absent or `None` collapses to `none`), `model_dump` the pydantic
fallback dump. -/
structure MsgRef where
  references : Option (List Val) := none
  model_dump : Option (List (String × Val)) := none

/-- Coerce the `ref_dict["references"]` value to an iterable of references
(Python iterates strings by character and dicts by key). -/
def iterableRefs : Val → Except String (List Val)
  | vlist xs => .ok xs
  | vstr s => .ok (s.toList.map (fun c => vstr (String.mk [c])))
  | vdict d => .ok (d.map (fun p => vstr p.1))
  | _ => .error "TypeError: object is not iterable"

/-- `_extract_sources_from_message_references` for one container. -/
def extractFromOneMsgRef (ctr : Nat) (m : MsgRef) :
    Except String (List RAGSource × Nat) :=
  match m.references with
  | some (r :: rs) => extract_sources_from_references ctr (some (r :: rs))
  | _ =>
    match m.model_dump with
    | some d =>
      match lookupKey "references" d with
      | some v =>
        if v.truthy then
          match iterableRefs v with
          | .error e => .error e
          | .ok refs => extract_sources_from_references ctr (some refs)
        else .ok ([], ctr)
      | none => .ok ([], ctr)
    | none => .ok ([], ctr)

/-- `_extract_sources_from_message_references` over the container list. -/
def extractFromMessageRefs (ctr : Nat) :
    List MsgRef → Except String (List RAGSource × Nat)
  | [] => .ok ([], ctr)
  | m :: rest =>
    match extractFromOneMsgRef ctr m with
    | .error e => .error e
    | .ok (ss, ctr2) =>
      match extractFromMessageRefs ctr2 rest with
      | .error e => .error e
      | .ok (ss2, ctr3) => .ok (ss ++ ss2, ctr3)

/-- Tool payload of a tool-call event (dynamic Python values). -/
structure ToolInfo where
  tool_call_id : Val := vnone
  tool_name : Val := vnone
  tool_args : Val := vnone
  result : Val := vnone

/-- The Agno run events dispatched by `_handle_event` (`otherEvent` stands
for any `BaseAgentRunEvent` subclass without a dispatch branch). -/
inductive AgnoEvent where
  | runStarted
  | runContent (references : List MsgRef) (reasoning_content : Option String)
      (content : Val)
  | runContentCompleted
  | runCompleted (run_id : Val) (references : List MsgRef) (content : Val)
  | runError (content : Val)
  | reasoningStarted
  | reasoningStep (reasoning_content : Option String)
  | reasoningCompleted
  | toolCallStarted (tool : Option ToolInfo)
  | toolCallCompleted (tool : Option ToolInfo)
  | custom (sources : Option (List Val))
  | otherEvent

/-- Downstream wire frame kinds. -/
inductive FrameKind where
  | start
  | textStart
  | textDelta
  | textEnd
  | reasoningStart
  | reasoningDelta
  | reasoningEnd
  | toolInputStart
  | toolInputAvailable
  | toolOutputAvailable
  | sourceDocument
  | dataRagSource
  | finish
  | error
  | done
deriving DecidableEq, Repr

/-- Downstream wire frames (the JSON payloads of the SSE events). -/
inductive Frame where
  | start (messageId : String)
  | textStart (id : Option String)
  | textDelta (id : Option String) (delta : String)
  | textEnd (id : Option String)
  | reasoningStart (id : Option String)
  | reasoningDelta (id : Option String) (delta : String)
  | reasoningEnd (id : Option String)
  | toolInputStart (toolCallId : Val) (toolName : Val)
  | toolInputAvailable (toolCallId : Val) (toolName : Val) (input : Val)
  | toolOutputAvailable (toolCallId : Val) (output : Val)
  | sourceDocument (sourceId : String) (mediaType : String) (title : Val)
  | dataRagSource (data : List (String × Val))
  | finish
  | error (errorText : String)
  | done

/-- Frame kind of a frame. -/
def Frame.kind : Frame → FrameKind
  | .start _ => .start
  | .textStart _ => .textStart
  | .textDelta _ _ => .textDelta
  | .textEnd _ => .textEnd
  | .reasoningStart _ => .reasoningStart
  | .reasoningDelta _ _ => .reasoningDelta
  | .reasoningEnd _ => .reasoningEnd
  | .toolInputStart _ _ => .toolInputStart
  | .toolInputAvailable _ _ _ => .toolInputAvailable
  | .toolOutputAvailable _ _ => .toolOutputAvailable
  | .sourceDocument _ _ _ => .sourceDocument
  | .dataRagSource _ => .dataRagSource
  | .finish => .finish
  | .error _ => .error
  | .done => .done

/-- `str.title()` for the one-word source types used by the code. -/
def pyTitleWord (s : String) : String :=
  match s.toList with
  | [] => ""
  | c :: rest => String.mk (c.toUpper :: rest.map Char.toLower)

/-- `_emit_source_document`. -/
def sourceDocFrame (s : RAGSource) : Frame :=
  .sourceDocument s.source_id s.source_type
    (pyOr s.title (vstr (pyTitleWord s.source_type ++ " Source")))

/-- `_emit_rag_source`. -/
def ragSourceFrame (s : RAGSource) : Frame :=
  .dataRagSource s.to_dict

/-- The frame part of `_emit_all_sources` (one `source-document` plus one
`data-rag-source` per source, in order). -/
def emitAllSourceFrames : List RAGSource → List Frame
  | [] => []
  | s :: rest => sourceDocFrame s :: ragSourceFrame s :: emitAllSourceFrames rest

/-- Adapter state (`AgnoVercelAdapter.__init__` fields plus the uuid
supply). -/
structure StreamState where
  message_id : String
  emit_sources_before_text : Bool
  text_block_id : Option String := none
  reasoning_block_id : Option String := none
  text_started : Bool := false
  reasoning_started : Bool := false
  sources_emitted : Bool := false
  collected_sources : List RAGSource := []
  agno_run_id : Val := vnone
  uuid_ctr : Nat

/-- Source-frame emission step shared by the content / completed / custom
branches: extract, and if any sources were produced, emit their frames,
collect them and set `sources_emitted`. -/
def emitSourcesStep (st : StreamState)
    (extracted : Except String (List RAGSource × Nat)) :
    List Frame × StreamState × Option String :=
  match extracted with
  | .error e => ([], st, some e)
  | .ok (sources, ctr2) =>
    if sources.isEmpty then ([], { st with uuid_ctr := ctr2 }, none)
    else
      (emitAllSourceFrames sources,
       { st with uuid_ctr := ctr2,
                 collected_sources := st.collected_sources ++ sources,
                 sources_emitted := true }, none)

/-- Lazily open the reasoning block (`_emit_reasoning_start` guarded by
`_reasoning_started`). -/
def openReasoning (st : StreamState) : List Frame × StreamState :=
  if st.reasoning_started then ([], st)
  else
    ([Frame.reasoningStart (some (uuidStr st.uuid_ctr))],
     { st with reasoning_started := true,
               reasoning_block_id := some (uuidStr st.uuid_ctr),
               uuid_ctr := st.uuid_ctr + 1 })

/-- Lazily open the text block. -/
def openText (st : StreamState) : List Frame × StreamState :=
  if st.text_started then ([], st)
  else
    ([Frame.textStart (some (uuidStr st.uuid_ctr))],
     { st with text_started := true,
               text_block_id := some (uuidStr st.uuid_ctr),
               uuid_ctr := st.uuid_ctr + 1 })

/-- `tool_call_id or str(uuid4())` / `tool_name or "unknown_tool"`. -/
def toolIds (st : StreamState) (t : ToolInfo) : Val × Val × StreamState :=
  if t.tool_call_id.truthy then (t.tool_call_id, pyOr t.tool_name (vstr "unknown_tool"), st)
  else
    (vstr (uuidStr st.uuid_ctr), pyOr t.tool_name (vstr "unknown_tool"),
     { st with uuid_ctr := st.uuid_ctr + 1 })

/-- The reference-handling step of the content branch (guarded by
`sources_emitted` and the before-text policy). -/
def contentSourcesStep (st : StreamState) (refs : List MsgRef) :
    List Frame × StreamState × Option String :=
  if !st.sources_emitted && st.emit_sources_before_text && !refs.isEmpty then
    emitSourcesStep st (extractFromMessageRefs st.uuid_ctr refs)
  else ([], st, none)

/-- The reasoning-content step of the content branch. -/
def reasoningDeltaStep (st : StreamState) (rc : Option String) :
    List Frame × StreamState :=
  match rc with
  | some s =>
    if s = "" then ([], st)
    else
      let (fsO, stO) := openReasoning st
      (fsO ++ [Frame.reasoningDelta stO.reasoning_block_id s], stO)
  | none => ([], st)

/-- The text-content step of the content branch. -/
def textDeltaStep (st : StreamState) (content : Val) :
    List Frame × StreamState :=
  if content.truthy then
    let (fsO, stO) := openText st
    (fsO ++ [Frame.textDelta stO.text_block_id content.pyStr], stO)
  else ([], st)

/-- The reference-handling step of the run-completed branch (no before-text
policy check, mirroring the code). -/
def completedSourcesStep (st : StreamState) (refs : List MsgRef) :
    List Frame × StreamState × Option String :=
  if !refs.isEmpty && !st.sources_emitted then
    emitSourcesStep st (extractFromMessageRefs st.uuid_ctr refs)
  else ([], st, none)

/-- The trailing-content step of the run-completed branch (only when no text
block was ever opened). -/
def completedTextStep (st : StreamState) (content : Val) :
    List Frame × StreamState :=
  if content.truthy && !st.text_started then
    let (fsO, stO) := openText st
    (fsO ++ [Frame.textDelta stO.text_block_id content.pyStr], stO)
  else ([], st)

/-- `AgnoVercelAdapter._handle_event`: frames yielded for one upstream event,
the updated adapter state, and the exception (if one was raised after the
listed frames were already yielded). -/
def handleEvent (st : StreamState) (e : AgnoEvent) :
    List Frame × StreamState × Option String :=
  match e with
  | .runStarted => ([], st, none)
  | .runContent refs rc content =>
    match contentSourcesStep st refs with
    | (fs, st1, some err) => (fs, st1, some err)
    | (fs, st1, none) =>
      let (fs2, st2) := reasoningDeltaStep st1 rc
      let (fs3, st3) := textDeltaStep st2 content
      (fs ++ fs2 ++ fs3, st3, none)
  | .runContentCompleted => ([], st, none)
  | .runCompleted run_id refs content =>
    let st0 := if run_id.truthy then { st with agno_run_id := run_id } else st
    match completedSourcesStep st0 refs with
    | (fs, st1, some err) => (fs, st1, some err)
    | (fs, st1, none) =>
      let (fs2, st2) := completedTextStep st1 content
      (fs ++ fs2, st2, none)
  | .runError content =>
    ([Frame.error (if content.truthy then content.pyStr else "An error occurred")],
     st, none)
  | .reasoningStarted =>
    let (fs, st1) := openReasoning st
    (fs, st1, none)
  | .reasoningStep rc =>
    let (fs, st1) := openReasoning st
    let (fs2, st2) :=
      match rc with
      | some s =>
        if s = "" then ([], st1)
        else ([Frame.reasoningDelta st1.reasoning_block_id s], st1)
      | none => ([], st1)
    (fs ++ fs2, st2, none)
  | .reasoningCompleted =>
    if st.reasoning_started then
      ([Frame.reasoningEnd st.reasoning_block_id],
       { st with reasoning_started := false }, none)
    else ([], st, none)
  | .toolCallStarted tool =>
    match tool with
    | none => ([], st, none)
    | some t =>
      let (callId, toolName, st1) := toolIds st t
      ([Frame.toolInputStart callId toolName], st1, none)
  | .toolCallCompleted tool =>
    match tool with
    | none => ([], st, none)
    | some t =>
      let (callId, toolName, st1) := toolIds st t
      ([Frame.toolInputAvailable callId toolName (pyOr t.tool_args (vdict [])),
        Frame.toolOutputAvailable callId t.result], st1, none)
  | .custom sources =>
    match sources with
    | some (r :: rs) =>
      emitSourcesStep st (extract_sources_from_references st.uuid_ctr (some (r :: rs)))
    | _ => ([], st, none)
  | .otherEvent => ([], st, none)

/-- One element of the upstream iteration: a yielded event, or an exception
raised by the upstream generator while producing the next event. -/
inductive StreamItem where
  | ev (e : AgnoEvent)
  | exn (msg : String)

/-- The `for event in agno_stream` loop inside the `try`: frames yielded so
far, final state, and the exception that aborted the loop (if any). -/
def processItems (st : StreamState) :
    List StreamItem → List Frame × StreamState × Option String
  | [] => ([], st, none)
  | .exn m :: _ => ([], st, some m)
  | .ev e :: rest =>
    match handleEvent st e with
    | (fs, st2, some err) => (fs, st2, some err)
    | (fs, st2, none) =>
      match processItems st2 rest with
      | (fs2, st3, err) => (fs ++ fs2, st3, err)

/-- `AgnoVercelAdapter.__init__` (a `none` message id draws a uuid). -/
def initState (message_id : Option String) (emit_sources_before_text : Bool)
    (ctr : Nat) : StreamState :=
  match message_id with
  | some m =>
    { message_id := m, emit_sources_before_text, uuid_ctr := ctr }
  | none =>
    { message_id := uuidStr ctr, emit_sources_before_text, uuid_ctr := ctr + 1 }

/-- The pre-retrieved-sources step at the top of the transform (guarded by
truthiness of the argument and the before-text policy). -/
def preSourcesStep (st : StreamState)
    (pre_retrieved_sources : Option (List RAGSource)) :
    List Frame × StreamState :=
  match pre_retrieved_sources with
  | some (s :: ss) =>
    if st.emit_sources_before_text then
      (emitAllSourceFrames (s :: ss),
       { st with collected_sources := st.collected_sources ++ (s :: ss),
                 sources_emitted := true })
    else ([], st)
  | some [] => ([], st)
  | none => ([], st)

/-- `AgnoVercelAdapter.transform_stream_sync` (the async variant
`transform_stream` yields the identical frame sequence; both drain the
upstream items and emit the same frames in the same order). -/
def transform_stream_sync (message_id : Option String)
    (emit_sources_before_text : Bool)
    (pre_retrieved_sources : Option (List RAGSource))
    (items : List StreamItem) (ctr : Nat) : List Frame × StreamState :=
  let st0 := initState message_id emit_sources_before_text ctr
  match preSourcesStep st0 pre_retrieved_sources with
  | (preFrames, st1) =>
    match processItems st1 items with
    | (fs, st2, none) =>
      let closing :=
        (if st2.text_started then [Frame.textEnd st2.text_block_id] else []) ++
        (if st2.reasoning_started
         then [Frame.reasoningEnd st2.reasoning_block_id] else [])
      (Frame.start st0.message_id :: (preFrames ++ fs ++ closing ++
        [Frame.finish, Frame.done]), st2)
    | (fs, st2, some e) =>
      (Frame.start st0.message_id :: (preFrames ++ fs ++
        [Frame.error e, Frame.done]), st2)

/-! ## Frame-sequence invariants of the adapter -/

/-- Number of frames of a given kind. -/
def countKind (k : FrameKind) (fs : List Frame) : Nat :=
  (fs.map Frame.kind).count k

theorem countKind_nil (k : FrameKind) : countKind k [] = 0 := rfl

theorem countKind_cons (k : FrameKind) (f : Frame) (fs : List Frame) :
    countKind k (f :: fs) =
      countKind k fs + (if f.kind = k then 1 else 0) := by
  simp [countKind, List.count_cons]

theorem countKind_append (k : FrameKind) (a b : List Frame) :
    countKind k (a ++ b) = countKind k a + countKind k b := by
  simp [countKind, List.count_append]

theorem countKind_eq_zero {k : FrameKind} {fs : List Frame}
    (h : ∀ f ∈ fs, f.kind ≠ k) : countKind k fs = 0 := by
  rw [countKind, List.count_eq_zero]
  intro hk
  obtain ⟨f, hf, hfk⟩ := List.mem_map.mp hk
  exact h f hf hfk

theorem emitAllSourceFrames_kinds (ss : List RAGSource) :
    ∀ f ∈ emitAllSourceFrames ss,
      f.kind = .sourceDocument ∨ f.kind = .dataRagSource := by
  induction ss with
  | nil => simp [emitAllSourceFrames]
  | cons s rest ih =>
    intro f hf
    rw [emitAllSourceFrames] at hf
    rcases List.mem_cons.mp hf with rfl | hf
    · exact Or.inl rfl
    · rcases List.mem_cons.mp hf with rfl | hf
      · exact Or.inr rfl
      · exact ih f hf

theorem emitSourcesStep_spec {st : StreamState}
    {ex : Except String (List RAGSource × Nat)}
    {fs : List Frame} {st' : StreamState} {err : Option String}
    (h : emitSourcesStep st ex = (fs, st', err)) :
    st'.text_started = st.text_started ∧
    st'.reasoning_started = st.reasoning_started ∧
    st'.text_block_id = st.text_block_id ∧
    st'.reasoning_block_id = st.reasoning_block_id ∧
    (st.sources_emitted = true → st'.sources_emitted = true) ∧
    (∀ f ∈ fs, f.kind = .sourceDocument ∨ f.kind = .dataRagSource) := by
  rw [emitSourcesStep.eq_def] at h
  rcases ex with e | ⟨sources, ctr2⟩
  · cases h
    exact ⟨rfl, rfl, rfl, rfl, fun hh => hh, by simp⟩
  · dsimp only at h
    by_cases he : sources.isEmpty
    · rw [if_pos he] at h
      cases h
      exact ⟨rfl, rfl, rfl, rfl, fun hh => hh, by simp⟩
    · rw [if_neg he] at h
      cases h
      exact ⟨rfl, rfl, rfl, rfl, fun _ => rfl, emitAllSourceFrames_kinds sources⟩

theorem openText_spec (st : StreamState) :
    (openText st).2.text_started = true ∧
    (openText st).2.reasoning_started = st.reasoning_started ∧
    (openText st).2.sources_emitted = st.sources_emitted ∧
    (openText st).2.reasoning_block_id = st.reasoning_block_id ∧
    countKind .textStart (openText st).1 +
      (if st.text_started then 1 else 0) = 1 ∧
    (∀ f ∈ (openText st).1, f.kind = .textStart) := by
  by_cases hts : st.text_started = true
  · simp [openText, hts, countKind]
  · rw [Bool.not_eq_true] at hts
    simp [openText, hts, countKind, Frame.kind]

theorem openReasoning_spec (st : StreamState) :
    (openReasoning st).2.reasoning_started = true ∧
    (openReasoning st).2.text_started = st.text_started ∧
    (openReasoning st).2.sources_emitted = st.sources_emitted ∧
    (openReasoning st).2.text_block_id = st.text_block_id ∧
    (∀ f ∈ (openReasoning st).1, f.kind = .reasoningStart) := by
  by_cases hts : st.reasoning_started = true
  · simp [openReasoning, hts]
  · rw [Bool.not_eq_true] at hts
    simp [openReasoning, hts, Frame.kind]

theorem contentSourcesStep_spec {st : StreamState} {refs : List MsgRef}
    {fs : List Frame} {st' : StreamState} {err : Option String}
    (h : contentSourcesStep st refs = (fs, st', err)) :
    st'.text_started = st.text_started ∧
    (st.sources_emitted = true → st'.sources_emitted = true) ∧
    (∀ f ∈ fs, f.kind = .sourceDocument ∨ f.kind = .dataRagSource) := by
  rw [contentSourcesStep] at h
  by_cases hc : (!st.sources_emitted && st.emit_sources_before_text &&
      !refs.isEmpty) = true
  · rw [if_pos hc] at h
    obtain ⟨a, -, -, -, e2, f2⟩ := emitSourcesStep_spec h
    exact ⟨a, e2, f2⟩
  · rw [if_neg hc] at h
    cases h
    exact ⟨rfl, fun x => x, by simp⟩

theorem contentSourcesStep_emitted {st : StreamState} {refs : List MsgRef}
    (h : st.sources_emitted = true) :
    contentSourcesStep st refs = ([], st, none) := by
  rw [contentSourcesStep, if_neg]
  simp [h]

theorem completedSourcesStep_spec {st : StreamState} {refs : List MsgRef}
    {fs : List Frame} {st' : StreamState} {err : Option String}
    (h : completedSourcesStep st refs = (fs, st', err)) :
    st'.text_started = st.text_started ∧
    (st.sources_emitted = true → st'.sources_emitted = true) ∧
    (∀ f ∈ fs, f.kind = .sourceDocument ∨ f.kind = .dataRagSource) := by
  rw [completedSourcesStep] at h
  by_cases hc : (!refs.isEmpty && !st.sources_emitted) = true
  · rw [if_pos hc] at h
    obtain ⟨a, -, -, -, e2, f2⟩ := emitSourcesStep_spec h
    exact ⟨a, e2, f2⟩
  · rw [if_neg hc] at h
    cases h
    exact ⟨rfl, fun x => x, by simp⟩

theorem completedSourcesStep_emitted {st : StreamState} {refs : List MsgRef}
    (h : st.sources_emitted = true) :
    completedSourcesStep st refs = ([], st, none) := by
  rw [completedSourcesStep, if_neg]
  simp [h]

theorem reasoningDeltaStep_spec (st : StreamState) (rc : Option String) :
    (reasoningDeltaStep st rc).2.text_started = st.text_started ∧
    (reasoningDeltaStep st rc).2.sources_emitted = st.sources_emitted ∧
    (reasoningDeltaStep st rc).2.text_block_id = st.text_block_id ∧
    (∀ f ∈ (reasoningDeltaStep st rc).1,
      f.kind = .reasoningStart ∨ f.kind = .reasoningDelta) := by
  obtain ⟨h1, h2, h3, h4, h5⟩ := openReasoning_spec st
  rcases rc with _ | s
  · exact ⟨rfl, rfl, rfl, by simp [reasoningDeltaStep]⟩
  · by_cases hs : s = ""
    · simp [reasoningDeltaStep, hs]
    · refine ⟨?_, ?_, ?_, ?_⟩ <;>
        simp only [reasoningDeltaStep, if_neg hs]
      · exact h2
      · exact h3
      · exact h4
      · intro f hf
        rcases List.mem_append.mp hf with hf | hf
        · exact Or.inl (h5 f hf)
        · rcases List.mem_singleton.mp hf with rfl
          exact Or.inr rfl

theorem textDeltaStep_spec (st : StreamState) (content : Val) :
    (countKind .textStart (textDeltaStep st content).1 +
      (if st.text_started then 1 else 0) =
      (if (textDeltaStep st content).2.text_started then 1 else 0)) ∧
    (textDeltaStep st content).2.sources_emitted = st.sources_emitted ∧
    (textDeltaStep st content).2.reasoning_started = st.reasoning_started ∧
    (∀ f ∈ (textDeltaStep st content).1,
      f.kind = .textStart ∨ f.kind = .textDelta) := by
  obtain ⟨h1, h2, h3, h4, h5, h6⟩ := openText_spec st
  by_cases hc : content.truthy = true
  · refine ⟨?_, ?_, ?_, ?_⟩ <;>
      simp only [textDeltaStep, if_pos hc]
    · rw [countKind_append, h1]
      have : countKind FrameKind.textStart
          [Frame.textDelta (openText st).2.text_block_id content.pyStr] = 0 := by
        simp [countKind, Frame.kind]
      rw [this]
      simpa using h5
    · exact h3
    · exact h2
    · intro f hf
      rcases List.mem_append.mp hf with hf | hf
      · exact Or.inl (h6 f hf)
      · rcases List.mem_singleton.mp hf with rfl
        exact Or.inr rfl
  · rw [Bool.not_eq_true] at hc
    simp [textDeltaStep, hc, countKind]

theorem completedTextStep_spec (st : StreamState) (content : Val) :
    (countKind .textStart (completedTextStep st content).1 +
      (if st.text_started then 1 else 0) =
      (if (completedTextStep st content).2.text_started then 1 else 0)) ∧
    (completedTextStep st content).2.sources_emitted = st.sources_emitted ∧
    (completedTextStep st content).2.reasoning_started = st.reasoning_started ∧
    (∀ f ∈ (completedTextStep st content).1,
      f.kind = .textStart ∨ f.kind = .textDelta) := by
  obtain ⟨h1, h2, h3, h4, h5, h6⟩ := openText_spec st
  by_cases hc : (content.truthy && !st.text_started) = true
  · refine ⟨?_, ?_, ?_, ?_⟩ <;>
      simp only [completedTextStep, if_pos hc]
    · rw [countKind_append, h1]
      have : countKind FrameKind.textStart
          [Frame.textDelta (openText st).2.text_block_id content.pyStr] = 0 := by
        simp [countKind, Frame.kind]
      rw [this]
      simpa using h5
    · exact h3
    · exact h2
    · intro f hf
      rcases List.mem_append.mp hf with hf | hf
      · exact Or.inl (h6 f hf)
      · rcases List.mem_singleton.mp hf with rfl
        exact Or.inr rfl
  · simp only [completedTextStep, if_neg hc]
    exact ⟨by simp [countKind], by trivial, by trivial, by simp⟩

theorem handleEvent_spec {st : StreamState} {e : AgnoEvent} {fs : List Frame}
    {st' : StreamState} {err : Option String}
    (h : handleEvent st e = (fs, st', err)) :
    (countKind .textStart fs + (if st.text_started then 1 else 0) =
      (if st'.text_started then 1 else 0)) ∧
    countKind .textEnd fs = 0 ∧
    countKind .finish fs = 0 ∧
    countKind .done fs = 0 ∧
    (st.sources_emitted = true → st'.sources_emitted = true) := by
  cases e with
  | runStarted =>
    rw [handleEvent] at h
    cases h
    exact ⟨by simp [countKind], rfl, rfl, rfl, fun x => x⟩
  | runContent refs rc content =>
    rw [handleEvent] at h
    rcases hcs : contentSourcesStep st refs with ⟨fs1, st1, err1⟩
    rw [hcs] at h
    obtain ⟨hts1, hse1, hkinds1⟩ := contentSourcesStep_spec hcs
    have hz1 : ∀ k, k ≠ FrameKind.sourceDocument → k ≠ FrameKind.dataRagSource →
        countKind k fs1 = 0 := by
      intro k hk1 hk2
      refine countKind_eq_zero ?_
      intro f hf
      rcases hkinds1 f hf with hh | hh <;> rw [hh]
      · exact fun hx => hk1 hx.symm
      · exact fun hx => hk2 hx.symm
    rcases err1 with _ | e1
    · dsimp only at h
      rcases hr : reasoningDeltaStep st1 rc with ⟨fs2, st2⟩
      rw [hr] at h
      have rspec := reasoningDeltaStep_spec st1 rc
      rw [hr] at rspec
      obtain ⟨hts2, hse2, -, hkinds2⟩ := rspec
      dsimp only at h hts2 hse2 hkinds2
      rcases ht : textDeltaStep st2 content with ⟨fs3, st3⟩
      rw [ht] at h
      have tspec := textDeltaStep_spec st2 content
      rw [ht] at tspec
      obtain ⟨hcnt3, hse3, -, hkinds3⟩ := tspec
      dsimp only at h hcnt3 hse3 hkinds3
      cases h
      have hz2 : ∀ k, k ≠ FrameKind.reasoningStart →
          k ≠ FrameKind.reasoningDelta → countKind k fs2 = 0 := by
        intro k hk1 hk2
        refine countKind_eq_zero ?_
        intro f hf
        rcases hkinds2 f hf with hh | hh <;> rw [hh]
        · exact fun hx => hk1 hx.symm
        · exact fun hx => hk2 hx.symm
      have hz3 : ∀ k, k ≠ FrameKind.textStart → k ≠ FrameKind.textDelta →
          countKind k fs3 = 0 := by
        intro k hk1 hk2
        refine countKind_eq_zero ?_
        intro f hf
        rcases hkinds3 f hf with hh | hh <;> rw [hh]
        · exact fun hx => hk1 hx.symm
        · exact fun hx => hk2 hx.symm
      refine ⟨?_, ?_, ?_, ?_, ?_⟩
      · rw [countKind_append, countKind_append,
          hz1 _ (by decide) (by decide), hz2 _ (by decide) (by decide)]
        rw [hts2, hts1] at hcnt3
        omega
      · rw [countKind_append, countKind_append,
          hz1 _ (by decide) (by decide), hz2 _ (by decide) (by decide),
          hz3 _ (by decide) (by decide)]
      · rw [countKind_append, countKind_append,
          hz1 _ (by decide) (by decide), hz2 _ (by decide) (by decide),
          hz3 _ (by decide) (by decide)]
      · rw [countKind_append, countKind_append,
          hz1 _ (by decide) (by decide), hz2 _ (by decide) (by decide),
          hz3 _ (by decide) (by decide)]
      · intro hse
        rw [hse3, hse2]
        exact hse1 hse
    · dsimp only at h
      cases h
      refine ⟨?_, hz1 _ (by decide) (by decide), hz1 _ (by decide) (by decide),
        hz1 _ (by decide) (by decide), hse1⟩
      rw [hz1 _ (by decide) (by decide), hts1]
      omega
  | runContentCompleted =>
    rw [handleEvent] at h
    cases h
    exact ⟨by simp [countKind], rfl, rfl, rfl, fun x => x⟩
  | runCompleted run_id refs content =>
    rw [handleEvent] at h
    dsimp only at h
    set st0 := if run_id.truthy = true then { st with agno_run_id := run_id }
      else st with hst0
    have hts0 : st0.text_started = st.text_started := by
      rw [hst0]
      split <;> rfl
    have hse0 : st0.sources_emitted = st.sources_emitted := by
      rw [hst0]
      split <;> rfl
    rcases hcs : completedSourcesStep st0 refs with ⟨fs1, st1, err1⟩
    rw [hcs] at h
    obtain ⟨hts1, hse1, hkinds1⟩ := completedSourcesStep_spec hcs
    have hz1 : ∀ k, k ≠ FrameKind.sourceDocument → k ≠ FrameKind.dataRagSource →
        countKind k fs1 = 0 := by
      intro k hk1 hk2
      refine countKind_eq_zero ?_
      intro f hf
      rcases hkinds1 f hf with hh | hh <;> rw [hh]
      · exact fun hx => hk1 hx.symm
      · exact fun hx => hk2 hx.symm
    rcases err1 with _ | e1
    · dsimp only at h
      rcases ht : completedTextStep st1 content with ⟨fs2, st2⟩
      rw [ht] at h
      have tspec := completedTextStep_spec st1 content
      rw [ht] at tspec
      obtain ⟨hcnt2, hse2, -, hkinds2⟩ := tspec
      dsimp only at h hcnt2 hse2 hkinds2
      cases h
      have hz2 : ∀ k, k ≠ FrameKind.textStart → k ≠ FrameKind.textDelta →
          countKind k fs2 = 0 := by
        intro k hk1 hk2
        refine countKind_eq_zero ?_
        intro f hf
        rcases hkinds2 f hf with hh | hh <;> rw [hh]
        · exact fun hx => hk1 hx.symm
        · exact fun hx => hk2 hx.symm
      refine ⟨?_, ?_, ?_, ?_, ?_⟩
      · rw [countKind_append, hz1 _ (by decide) (by decide)]
        rw [hts1, hts0] at hcnt2
        omega
      · rw [countKind_append, hz1 _ (by decide) (by decide),
          hz2 _ (by decide) (by decide)]
      · rw [countKind_append, hz1 _ (by decide) (by decide),
          hz2 _ (by decide) (by decide)]
      · rw [countKind_append, hz1 _ (by decide) (by decide),
          hz2 _ (by decide) (by decide)]
      · intro hse
        rw [hse2]
        exact hse1 (by rw [hse0]; exact hse)
    · dsimp only at h
      cases h
      refine ⟨?_, hz1 _ (by decide) (by decide), hz1 _ (by decide) (by decide),
        hz1 _ (by decide) (by decide), ?_⟩
      · rw [hz1 _ (by decide) (by decide), hts1, hts0]
        omega
      · intro hse
        refine hse1 ?_
        rw [hse0]
        exact hse
  | runError content =>
    rw [handleEvent] at h
    cases h
    exact ⟨by simp [countKind, Frame.kind], by simp [countKind, Frame.kind],
      by simp [countKind, Frame.kind], by simp [countKind, Frame.kind],
      fun x => x⟩
  | reasoningStarted =>
    rw [handleEvent] at h
    obtain ⟨-, hts, hse, -, hkinds⟩ := openReasoning_spec st
    rcases ho : openReasoning st with ⟨fs1, st1⟩
    rw [ho] at h hts hse hkinds
    dsimp only at h hts hse hkinds
    have hz : ∀ k, k ≠ FrameKind.reasoningStart → countKind k fs1 = 0 := by
      intro k hk
      refine countKind_eq_zero ?_
      intro f hf
      rw [hkinds f hf]
      exact fun hx => hk hx.symm
    cases h
    refine ⟨?_, hz _ (by decide), hz _ (by decide), hz _ (by decide),
      fun x => hse ▸ x⟩
    rw [hz _ (by decide), hts]
    omega
  | reasoningStep rc =>
    rw [handleEvent] at h
    obtain ⟨-, hts, hse, -, hkinds⟩ := openReasoning_spec st
    rcases ho : openReasoning st with ⟨fs1, st1⟩
    rw [ho] at h hts hse hkinds
    dsimp only at h hts hse hkinds
    have hz1 : ∀ k, k ≠ FrameKind.reasoningStart → countKind k fs1 = 0 := by
      intro k hk
      refine countKind_eq_zero ?_
      intro f hf
      rw [hkinds f hf]
      exact fun hx => hk hx.symm
    rcases rc with _ | t
    · dsimp only at h
      cases h
      refine ⟨?_, ?_, ?_, ?_, fun x => hse ▸ x⟩ <;>
        rw [countKind_append, countKind_nil, hz1 _ (by decide)]
      rw [hts]
      omega
    · by_cases hst : t = ""
      · dsimp only at h
        rw [if_pos hst] at h
        cases h
        refine ⟨?_, ?_, ?_, ?_, fun x => hse ▸ x⟩ <;>
          rw [countKind_append, countKind_nil, hz1 _ (by decide)]
        rw [hts]
        omega
      · dsimp only at h
        rw [if_neg hst] at h
        cases h
        have hone : ∀ k, k ≠ FrameKind.reasoningDelta →
            countKind k [Frame.reasoningDelta st1.reasoning_block_id t] = 0 := by
          intro k hk
          refine countKind_eq_zero ?_
          intro f hf
          rcases List.mem_singleton.mp hf with rfl
          exact fun hx => hk hx.symm
        refine ⟨?_, ?_, ?_, ?_, fun x => hse ▸ x⟩ <;>
          rw [countKind_append, hz1 _ (by decide), hone _ (by decide)]
        rw [hts]
        omega
  | reasoningCompleted =>
    rw [handleEvent] at h
    by_cases hr : st.reasoning_started = true
    · rw [if_pos hr] at h
      cases h
      exact ⟨by simp [countKind, Frame.kind], by simp [countKind, Frame.kind],
        by simp [countKind, Frame.kind], by simp [countKind, Frame.kind],
        fun x => x⟩
    · rw [if_neg hr] at h
      cases h
      exact ⟨by simp [countKind], rfl, rfl, rfl, fun x => x⟩
  | toolCallStarted tool =>
    rcases tool with _ | t
    · rw [handleEvent] at h
      cases h
      exact ⟨by simp [countKind], rfl, rfl, rfl, fun x => x⟩
    · rw [handleEvent] at h
      dsimp only at h
      rcases hti : toolIds st t with ⟨callId, toolName, st1⟩
      rw [hti] at h
      dsimp only at h
      have hfields : st1.text_started = st.text_started ∧
          st1.sources_emitted = st.sources_emitted := by
        rw [toolIds] at hti
        split at hti <;> (cases hti; exact ⟨rfl, rfl⟩)
      cases h
      exact ⟨by rw [hfields.1]; simp [countKind, Frame.kind],
        by simp [countKind, Frame.kind], by simp [countKind, Frame.kind],
        by simp [countKind, Frame.kind], fun x => hfields.2 ▸ x⟩
  | toolCallCompleted tool =>
    rcases tool with _ | t
    · rw [handleEvent] at h
      cases h
      exact ⟨by simp [countKind], rfl, rfl, rfl, fun x => x⟩
    · rw [handleEvent] at h
      dsimp only at h
      rcases hti : toolIds st t with ⟨callId, toolName, st1⟩
      rw [hti] at h
      dsimp only at h
      have hfields : st1.text_started = st.text_started ∧
          st1.sources_emitted = st.sources_emitted := by
        rw [toolIds] at hti
        split at hti <;> (cases hti; exact ⟨rfl, rfl⟩)
      cases h
      exact ⟨by rw [hfields.1]; simp [countKind, Frame.kind],
        by simp [countKind, Frame.kind], by simp [countKind, Frame.kind],
        by simp [countKind, Frame.kind], fun x => hfields.2 ▸ x⟩
  | custom sources =>
    rcases sources with _ | srcs
    · rw [handleEvent.eq_def] at h
      dsimp only at h
      cases h
      exact ⟨by simp [countKind], rfl, rfl, rfl, fun x => x⟩
    · rcases srcs with _ | ⟨r, rs⟩
      · rw [handleEvent.eq_def] at h
        dsimp only at h
        cases h
        exact ⟨by simp [countKind], rfl, rfl, rfl, fun x => x⟩
      · rw [handleEvent] at h
        obtain ⟨hts, -, -, -, hse, hkinds⟩ := emitSourcesStep_spec h
        have hz : ∀ k, k ≠ FrameKind.sourceDocument →
            k ≠ FrameKind.dataRagSource → countKind k fs = 0 := by
          intro k hk1 hk2
          refine countKind_eq_zero ?_
          intro f hf
          rcases hkinds f hf with hh | hh <;> rw [hh]
          · exact fun hx => hk1 hx.symm
          · exact fun hx => hk2 hx.symm
        refine ⟨?_, hz _ (by decide) (by decide), hz _ (by decide) (by decide),
          hz _ (by decide) (by decide), hse⟩
        rw [hz _ (by decide) (by decide), hts]
        omega
  | otherEvent =>
    rw [handleEvent] at h
    cases h
    exact ⟨by simp [countKind], rfl, rfl, rfl, fun x => x⟩

theorem processItems_spec {items : List StreamItem} :
    ∀ {st : StreamState} {fs : List Frame} {st' : StreamState}
      {err : Option String}, processItems st items = (fs, st', err) →
    (countKind .textStart fs + (if st.text_started then 1 else 0) =
      (if st'.text_started then 1 else 0)) ∧
    countKind .textEnd fs = 0 ∧
    countKind .finish fs = 0 ∧
    countKind .done fs = 0 ∧
    (st.sources_emitted = true → st'.sources_emitted = true) := by
  induction items with
  | nil =>
    intro st fs st' err h
    rw [processItems] at h
    cases h
    exact ⟨by simp [countKind], rfl, rfl, rfl, fun x => x⟩
  | cons item rest ih =>
    intro st fs st' err h
    cases item with
    | exn m =>
      rw [processItems] at h
      cases h
      exact ⟨by simp [countKind], rfl, rfl, rfl, fun x => x⟩
    | ev e =>
      rw [processItems] at h
      rcases he : handleEvent st e with ⟨fs1, st1, err1⟩
      rw [he] at h
      obtain ⟨hc1, hte1, hf1, hd1, hse1⟩ := handleEvent_spec he
      rcases err1 with _ | e1
      · dsimp only at h
        rcases hp : processItems st1 rest with ⟨fs2, st2, err2⟩
        rw [hp] at h
        dsimp only at h
        cases h
        obtain ⟨hc2, hte2, hf2, hd2, hse2⟩ := ih hp
        refine ⟨?_, ?_, ?_, ?_, fun x => hse2 (hse1 x)⟩
        · rw [countKind_append]
          omega
        · rw [countKind_append, hte1, hte2]
        · rw [countKind_append, hf1, hf2]
        · rw [countKind_append, hd1, hd2]
      · dsimp only at h
        cases h
        exact ⟨hc1, hte1, hf1, hd1, hse1⟩

theorem initState_fields (mid : Option String) (esbt : Bool) (ctr : Nat) :
    (initState mid esbt ctr).text_started = false ∧
    (initState mid esbt ctr).reasoning_started = false ∧
    (initState mid esbt ctr).sources_emitted = false ∧
    (initState mid esbt ctr).emit_sources_before_text = esbt := by
  cases mid <;> exact ⟨rfl, rfl, rfl, rfl⟩

/-- C3 (amended): for every upstream item sequence drained to exhaustion (or
aborted by an exception), the emitted frame sequence contains at most one
`text-start` and at most one `text-end` (hence at most one text block pair),
and its final frame is `done` on every path — normal completion, an upstream
run-error event, or an exception raised during iteration.  (The claimed "at
most one reasoning-start/reasoning-end pair" is false on the code: a
reasoning-completed event resets the flag, so a later reasoning event opens
a fresh pair — see the counterexample.) -/
theorem adapter_frame_invariants (mid : Option String) (esbt : Bool)
    (pre : Option (List RAGSource)) (items : List StreamItem) (ctr : Nat) :
    countKind .textStart (transform_stream_sync mid esbt pre items ctr).1 ≤ 1 ∧
    countKind .textEnd (transform_stream_sync mid esbt pre items ctr).1 ≤ 1 ∧
    (transform_stream_sync mid esbt pre items ctr).1.getLast? =
      some Frame.done := by
  obtain ⟨hts0, hrs0, hse0, -⟩ := initState_fields mid esbt ctr
  rw [transform_stream_sync]
  rcases hpre : preSourcesStep (initState mid esbt ctr) pre
    with ⟨preFrames, st1⟩
  dsimp only
  have hpre2 : (∀ f ∈ preFrames,
      f.kind = FrameKind.sourceDocument ∨ f.kind = FrameKind.dataRagSource) ∧
      st1.text_started = false := by
    rw [preSourcesStep.eq_def] at hpre
    rcases pre with _ | ps
    · cases hpre
      exact ⟨by simp, hts0⟩
    · rcases ps with _ | ⟨p, ps⟩
      · cases hpre
        exact ⟨by simp, hts0⟩
      · dsimp only at hpre
        split at hpre <;> cases hpre
        · exact ⟨emitAllSourceFrames_kinds _, hts0⟩
        · exact ⟨by simp, hts0⟩
  obtain ⟨hprek, hts1⟩ := hpre2
  have hprez : ∀ k, k ≠ FrameKind.sourceDocument →
      k ≠ FrameKind.dataRagSource → countKind k preFrames = 0 := by
    intro k hk1 hk2
    refine countKind_eq_zero ?_
    intro f hf
    rcases hprek f hf with hh | hh <;> rw [hh]
    · exact fun hx => hk1 hx.symm
    · exact fun hx => hk2 hx.symm
  rcases hproc : processItems st1 items with ⟨fs, st2, err⟩
  obtain ⟨hcnt, hte, hfin, hdn, -⟩ := processItems_spec hproc
  rw [hts1] at hcnt
  have hcnt2 : countKind FrameKind.textStart fs ≤ 1 := by
    by_cases hb : st2.text_started = true <;> simp [hb] at hcnt <;> omega
  rcases err with _ | e
  · dsimp only
    have htextEnd : countKind FrameKind.textEnd
        ((if st2.text_started = true then [Frame.textEnd st2.text_block_id]
          else []) ++
         (if st2.reasoning_started = true
          then [Frame.reasoningEnd st2.reasoning_block_id] else [])) ≤ 1 := by
      split <;> split <;> simp [countKind, Frame.kind, countKind_append]
    have htextStart : countKind FrameKind.textStart
        ((if st2.text_started = true then [Frame.textEnd st2.text_block_id]
          else []) ++
         (if st2.reasoning_started = true
          then [Frame.reasoningEnd st2.reasoning_block_id] else [])) = 0 := by
      split <;> split <;> simp [countKind, Frame.kind, countKind_append]
    refine ⟨?_, ?_, ?_⟩
    · rw [countKind_cons, countKind_append, countKind_append,
        countKind_append, hprez _ (by decide) (by decide), htextStart,
        show countKind FrameKind.textStart [Frame.finish, Frame.done] = 0
          from by simp [countKind, Frame.kind],
        show (if (Frame.start (initState mid esbt ctr).message_id).kind =
            FrameKind.textStart then 1 else 0) = 0 from by simp [Frame.kind]]
      omega
    · rw [countKind_cons, countKind_append, countKind_append,
        countKind_append, hprez _ (by decide) (by decide), hte,
        show countKind FrameKind.textEnd [Frame.finish, Frame.done] = 0
          from by simp [countKind, Frame.kind],
        show (if (Frame.start (initState mid esbt ctr).message_id).kind =
            FrameKind.textEnd then 1 else 0) = 0 from by simp [Frame.kind]]
      omega
    · rw [show Frame.start (initState mid esbt ctr).message_id ::
          (preFrames ++ fs ++
            ((if st2.text_started = true
              then [Frame.textEnd st2.text_block_id] else []) ++
             (if st2.reasoning_started = true
              then [Frame.reasoningEnd st2.reasoning_block_id] else [])) ++
            [Frame.finish, Frame.done]) =
          (Frame.start (initState mid esbt ctr).message_id ::
            (preFrames ++ fs ++
              ((if st2.text_started = true
                then [Frame.textEnd st2.text_block_id] else []) ++
               (if st2.reasoning_started = true
                then [Frame.reasoningEnd st2.reasoning_block_id] else [])) ++
              [Frame.finish])) ++ [Frame.done] from by simp]
      exact List.getLast?_concat _
  · dsimp only
    refine ⟨?_, ?_, ?_⟩
    · rw [countKind_cons, countKind_append, countKind_append,
        hprez _ (by decide) (by decide),
        show countKind FrameKind.textStart [Frame.error e, Frame.done] = 0
          from by simp [countKind, Frame.kind],
        show (if (Frame.start (initState mid esbt ctr).message_id).kind =
            FrameKind.textStart then 1 else 0) = 0 from by simp [Frame.kind]]
      omega
    · rw [countKind_cons, countKind_append, countKind_append,
        hprez _ (by decide) (by decide), hte,
        show countKind FrameKind.textEnd [Frame.error e, Frame.done] = 0
          from by simp [countKind, Frame.kind],
        show (if (Frame.start (initState mid esbt ctr).message_id).kind =
            FrameKind.textEnd then 1 else 0) = 0 from by simp [Frame.kind]]
      omega
    · rw [show Frame.start (initState mid esbt ctr).message_id ::
          (preFrames ++ fs ++ [Frame.error e, Frame.done]) =
          (Frame.start (initState mid esbt ctr).message_id ::
            (preFrames ++ fs ++ [Frame.error e])) ++ [Frame.done] from by simp]
      exact List.getLast?_concat _

/-- C3 counterexample: two reasoning-started/completed cycles produce two
`reasoning-start`/`reasoning-end` pairs in one run (the completed handler
resets `_reasoning_started`), so "at most one reasoning-start/reasoning-end
pair per run" is false on the code. -/
theorem adapter_reasoning_pairs_repeat :
    ((transform_stream_sync (some "m") true none
      [.ev .reasoningStarted, .ev .reasoningCompleted, .ev .reasoningStarted,
       .ev .reasoningCompleted] 0).1.map Frame.kind =
      [.start, .reasoningStart, .reasoningEnd, .reasoningStart,
       .reasoningEnd, .finish, .done]) ∧
    countKind .reasoningStart (transform_stream_sync (some "m") true none
      [.ev .reasoningStarted, .ev .reasoningCompleted, .ev .reasoningStarted,
       .ev .reasoningCompleted] 0).1 = 2 := by
  exact ⟨by decide, by decide⟩

/-- C1 (amended): for a run whose upstream yields one content event carrying
non-blank answer text and then a run-error event and then ends, the emitted
frames are exactly `[start, text-start, text-delta, error, text-end, finish,
done]`: the run-error event emits the error frame but does **not** suppress
the subsequent close of the text block nor the `finish` frame, because the
loop continues and the normal exhaustion epilogue still runs. -/
theorem run_error_then_exhaustion_frames (txt errtxt : String)
    (htxt : txt ≠ "") (herr : errtxt ≠ "") :
    (transform_stream_sync (some "m") true none
      [.ev (.runContent [] none (vstr txt)), .ev (.runError (vstr errtxt))]
      0).1 =
    [Frame.start "m", Frame.textStart (some "uuid-0"),
     Frame.textDelta (some "uuid-0") txt, Frame.error errtxt,
     Frame.textEnd (some "uuid-0"), Frame.finish, Frame.done] := by
  have h1 : (vstr txt).truthy = true := by simp [truthy, htxt]
  have h2 : (vstr errtxt).truthy = true := by simp [truthy, herr]
  simp only [transform_stream_sync, initState, preSourcesStep, processItems,
    handleEvent, contentSourcesStep, reasoningDeltaStep, textDeltaStep,
    openText, h1, h2, pyStr, uuidStr]
  rfl

/-- C1 witness: the amended run-error behaviour at concrete inputs. -/
theorem run_error_then_exhaustion_frames_witness :
    (transform_stream_sync (some "m") true none
      [.ev (.runContent [] none (vstr "Hello")),
       .ev (.runError (vstr "boom"))] 0).1 =
    [Frame.start "m", Frame.textStart (some "uuid-0"),
     Frame.textDelta (some "uuid-0") "Hello", Frame.error "boom",
     Frame.textEnd (some "uuid-0"), Frame.finish, Frame.done] :=
  run_error_then_exhaustion_frames "Hello" "boom" (by decide) (by decide)

/-- C1 counterexample: on the Scenario B upstream (one content event, then a
run-error event, then exhaustion) the code emits
`[start, text-start, text-delta, error, text-end, finish, done]`, not the
claimed `[start, text-start, text-delta, error, done]`: content frames are
not suppressed after the error and both `text-end` and `finish` appear. -/
theorem run_error_claimed_sequence_false :
    ((transform_stream_sync (some "m") true none
      [.ev (.runContent [] none (vstr "Hello")),
       .ev (.runError (vstr "boom"))] 0).1.map Frame.kind =
      [.start, .textStart, .textDelta, .error, .textEnd, .finish, .done]) ∧
    ((transform_stream_sync (some "m") true none
      [.ev (.runContent [] none (vstr "Hello")),
       .ev (.runError (vstr "boom"))] 0).1.map Frame.kind ≠
      [.start, .textStart, .textDelta, .error, .done]) := by
  exact ⟨by decide, by decide⟩

theorem countKind_sourceDoc_emitAll (ss : List RAGSource) :
    countKind .sourceDocument (emitAllSourceFrames ss) = ss.length := by
  induction ss with
  | nil => rfl
  | cons s rest ih =>
    rw [emitAllSourceFrames, countKind_cons, countKind_cons, ih]
    simp [sourceDocFrame, ragSourceFrame, Frame.kind]

/-- C2 (amended): the `sources_emitted` flag is monotone (never reset), and
once it is true the content-delta and run-completed handlers emit no further
`source-document` / `data-rag-source` frames; but the custom source event
handler performs **no** `sources_emitted` check: it emits one
`source-document` plus one `data-rag-source` frame per extracted source
regardless of the flag, so a later custom source event can re-emit source
frames after they were already emitted. -/
theorem sources_emitted_monotone_custom_reemits :
    (∀ (st : StreamState) (e : AgnoEvent) (fs : List Frame)
      (st2 : StreamState) (err : Option String),
      handleEvent st e = (fs, st2, err) →
      st.sources_emitted = true → st2.sources_emitted = true) ∧
    (∀ (st : StreamState) (refs : List MsgRef) (rc : Option String)
      (content : Val) (fs : List Frame) (st2 : StreamState)
      (err : Option String),
      st.sources_emitted = true →
      handleEvent st (.runContent refs rc content) = (fs, st2, err) →
      countKind .sourceDocument fs = 0 ∧ countKind .dataRagSource fs = 0) ∧
    (∀ (st : StreamState) (run_id : Val) (refs : List MsgRef) (content : Val)
      (fs : List Frame) (st2 : StreamState) (err : Option String),
      st.sources_emitted = true →
      handleEvent st (.runCompleted run_id refs content) = (fs, st2, err) →
      countKind .sourceDocument fs = 0 ∧ countKind .dataRagSource fs = 0) ∧
    (∀ (st : StreamState) (r : Val) (rs : List Val) (srcs : List RAGSource)
      (ctr2 : Nat),
      extract_sources_from_references st.uuid_ctr (some (r :: rs)) =
        .ok (srcs, ctr2) →
      srcs ≠ [] →
      (handleEvent st (.custom (some (r :: rs)))).1 =
        emitAllSourceFrames srcs) ∧
    (∀ srcs : List RAGSource,
      countKind .sourceDocument (emitAllSourceFrames srcs) = srcs.length) := by
  refine ⟨?_, ?_, ?_, ?_, countKind_sourceDoc_emitAll⟩
  · intro st e fs st2 err h hse
    exact (handleEvent_spec h).2.2.2.2 hse
  · intro st refs rc content fs st2 err hse h
    rw [handleEvent, contentSourcesStep_emitted hse] at h
    dsimp only at h
    rcases hr : reasoningDeltaStep st rc with ⟨fs2, stR⟩
    rw [hr] at h
    have rspec := reasoningDeltaStep_spec st rc
    rw [hr] at rspec
    obtain ⟨-, -, -, hkinds2⟩ := rspec
    dsimp only at h hkinds2
    rcases ht : textDeltaStep stR content with ⟨fs3, stT⟩
    rw [ht] at h
    have tspec := textDeltaStep_spec stR content
    rw [ht] at tspec
    obtain ⟨-, -, -, hkinds3⟩ := tspec
    dsimp only at h hkinds3
    cases h
    constructor <;>
      (rw [countKind_append, countKind_append, countKind_nil]
       rw [countKind_eq_zero (fun f hf => ?_), countKind_eq_zero (fun f hf => ?_)]
       rotate_left
       · rcases hkinds2 f hf with hh | hh <;> rw [hh] <;> decide
       · rcases hkinds3 f hf with hh | hh <;> rw [hh] <;> decide)
  · intro st run_id refs content fs st2 err hse h
    rw [handleEvent] at h
    dsimp only at h
    have hse0 : (if run_id.truthy = true then { st with agno_run_id := run_id }
        else st).sources_emitted = true := by
      split <;> exact hse
    rw [completedSourcesStep_emitted hse0] at h
    dsimp only at h
    rcases ht : completedTextStep (if run_id.truthy = true
        then { st with agno_run_id := run_id } else st) content with ⟨fs2, stT⟩
    rw [ht] at h
    have tspec := completedTextStep_spec (if run_id.truthy = true
        then { st with agno_run_id := run_id } else st) content
    rw [ht] at tspec
    obtain ⟨-, -, -, hkinds2⟩ := tspec
    dsimp only at h hkinds2
    cases h
    constructor <;>
      (rw [countKind_append, countKind_nil]
       rw [countKind_eq_zero (fun f hf => ?_)]
       · rcases hkinds2 f hf with hh | hh <;> rw [hh] <;> decide)
  · intro st r rs srcs ctr2 hex hne
    rw [handleEvent, hex]
    rw [emitSourcesStep]
    rw [if_neg (by simpa using hne)]

/-- A concrete pre-retrieved source for the C2 scenario. -/
def preSrc : RAGSource :=
  { source_id := "s1", source_type := "slide", content_preview := "p" }

/-- C2 counterexample: after pre-retrieved sources were emitted
(`sources_emitted` is true), a later custom source event still emits a
second `source-document`/`data-rag-source` pair — the claimed suppression
does not happen. -/
theorem custom_event_reemits_sources :
    ((transform_stream_sync (some "m") true (some [preSrc])
      [.ev (.custom (some [vstr "x"]))] 0).1.map Frame.kind =
      [.start, .sourceDocument, .dataRagSource, .sourceDocument,
       .dataRagSource, .finish, .done]) ∧
    countKind .sourceDocument (transform_stream_sync (some "m") true
      (some [preSrc]) [.ev (.custom (some [vstr "x"]))] 0).1 = 2 := by
  exact ⟨by decide, by decide⟩

/-- The adapter state of the C2 witness: sources already emitted. -/
def stEmitted : StreamState :=
  { message_id := "m", emit_sources_before_text := true,
    sources_emitted := true, uuid_ctr := 0 }

/-- C2 witness: the amended theorem applied at a concrete emitted state and
content event carrying references — no further source frames are emitted. -/
theorem sources_emitted_monotone_custom_reemits_witness :
    countKind .sourceDocument (handleEvent stEmitted
      (.runContent [{ references := some [vstr "x"] }] none (vstr "t"))).1 = 0 :=
  (sources_emitted_monotone_custom_reemits.2.1 stEmitted
    [{ references := some [vstr "x"] }] none (vstr "t")
    (handleEvent stEmitted
      (.runContent [{ references := some [vstr "x"] }] none (vstr "t"))).1
    (handleEvent stEmitted
      (.runContent [{ references := some [vstr "x"] }] none (vstr "t"))).2.1
    (handleEvent stEmitted
      (.runContent [{ references := some [vstr "x"] }] none (vstr "t"))).2.2
    rfl rfl).1

/-! ## Source identifiers and chunk-number fallback of the extractor -/

/-- Projection: source id of the first extracted source. -/
def firstSourceId : Except String (List RAGSource × Nat) → Option String
  | .ok (s :: _, _) => some s.source_id
  | _ => none

/-- Projection: chunk number of the first extracted source. -/
def firstChunkNumber : Except String (List RAGSource × Nat) → Option Val
  | .ok (s :: _, _) => some s.chunk_number
  | _ => none

theorem extractOne_slide_id {rd md : List (String × Val)} (ctr idx : Nat)
    (hmeta : lookupKey "metadata" rd = some (vdict md))
    (hdoc : (dictGetD md "document_id" vnone).truthy = true)
    (hcont : ∃ s, dictGetD rd "content" (vstr "") = vstr s) :
    ∃ src, extractOne ctr idx (vdict rd) = .ok (src, ctr) ∧
      src.source_id = "slide-" ++ (dictGetD md "document_id" vnone).pyStr ++
        "-" ++ (dictGetD md "slide_number" (vint 0)).pyStr := by
  obtain ⟨s, hs⟩ := hcont
  have hm : dictGetD rd "metadata" (vdict []) = vdict md := by
    simp [dictGetD, hmeta]
  rw [extractOne, hm]
  dsimp only
  rw [if_pos hdoc, hs]
  by_cases hse : (vstr s).truthy = true
  · rw [if_pos hse]
    exact ⟨_, rfl, rfl⟩
  · rw [if_neg hse]
    exact ⟨_, rfl, rfl⟩

theorem extractOne_lecture_id {rd md : List (String × Val)} (ctr idx : Nat)
    (hmeta : lookupKey "metadata" rd = some (vdict md))
    (hdoc : (dictGetD md "document_id" vnone).truthy = false)
    (hlec : (dictGetD md "lecture_id" vnone).truthy = true)
    (hst : isNumB (dictGetD md "start_seconds" (vint 0)) = true)
    (hcont : ∃ s, dictGetD rd "content" (vstr "") = vstr s) :
    ∃ src n, extractOne ctr idx (vdict rd) = .ok (src, ctr + 0) ∧
      pyIntE (dictGetD md "start_seconds" (vint 0)) = .ok n ∧
      src.source_id = "lecture-" ++ (dictGetD md "lecture_id" vnone).pyStr ++
        "-" ++ toString n := by
  obtain ⟨s, hs⟩ := hcont
  have hm : dictGetD rd "metadata" (vdict []) = vdict md := by
    simp [dictGetD, hmeta]
  have hn : ∃ n, pyIntE (dictGetD md "start_seconds" (vint 0)) = .ok n := by
    rcases hv : dictGetD md "start_seconds" (vint 0) with t | n | q | _ | xs | dd <;>
      rw [hv] at hst <;> simp [isNumB] at hst
    · exact ⟨_, rfl⟩
    · exact ⟨_, rfl⟩
  obtain ⟨n, hpy⟩ := hn
  rw [extractOne, hm]
  dsimp only
  rw [if_neg (by simp [hdoc]), if_pos hlec, hpy, hs]
  by_cases hse : (vstr s).truthy = true
  · rw [if_pos hse]
    exact ⟨_, n, rfl, rfl, rfl⟩
  · rw [if_neg hse]
    exact ⟨_, n, rfl, rfl, rfl⟩

/-- C7 (amended): slide source ids are the pure function
`slide-{document_id}-{slide_number|0}` of the metadata; lecture source ids
are `lecture-{lecture_id}-{int(start_seconds|0)}` where `int` is Python
truncation **toward zero** (floor for nonnegative values, ceiling for
negative ones) — not floor as claimed; in both cases the uuid supply is not
consumed, so identical inputs yield identical source ids across repeated
extraction calls. -/
theorem extract_source_id_pure :
    (∀ (rd md : List (String × Val)) (ctr idx : Nat),
      lookupKey "metadata" rd = some (vdict md) →
      (dictGetD md "document_id" vnone).truthy = true →
      (∃ s, dictGetD rd "content" (vstr "") = vstr s) →
      ∃ src, extractOne ctr idx (vdict rd) = .ok (src, ctr) ∧
        src.source_id = "slide-" ++ (dictGetD md "document_id" vnone).pyStr ++
          "-" ++ (dictGetD md "slide_number" (vint 0)).pyStr) ∧
    (∀ (rd md : List (String × Val)) (ctr idx : Nat),
      lookupKey "metadata" rd = some (vdict md) →
      (dictGetD md "document_id" vnone).truthy = false →
      (dictGetD md "lecture_id" vnone).truthy = true →
      isNumB (dictGetD md "start_seconds" (vint 0)) = true →
      (∃ s, dictGetD rd "content" (vstr "") = vstr s) →
      ∃ src n, extractOne ctr idx (vdict rd) = .ok (src, ctr + 0) ∧
        pyIntE (dictGetD md "start_seconds" (vint 0)) = .ok n ∧
        src.source_id = "lecture-" ++
          (dictGetD md "lecture_id" vnone).pyStr ++ "-" ++ toString n) ∧
    (∀ q : Rat, pyIntE (vfloat q) = .ok (if 0 ≤ q then ⌊q⌋ else ⌈q⌉)) ∧
    (∀ (rd md : List (String × Val)) (ctr ctr' idx idx' : Nat),
      lookupKey "metadata" rd = some (vdict md) →
      (dictGetD md "document_id" vnone).truthy = true →
      (∃ s, dictGetD rd "content" (vstr "") = vstr s) →
      firstSourceId (extractList ctr idx [vdict rd]) =
        firstSourceId (extractList ctr' idx' [vdict rd])) := by
  refine ⟨fun rd md ctr idx => extractOne_slide_id ctr idx,
    fun rd md ctr idx => extractOne_lecture_id ctr idx,
    fun q => rfl, ?_⟩
  intro rd md ctr ctr' idx idx' hmeta hdoc hcont
  obtain ⟨src, h1, hid1⟩ := @extractOne_slide_id rd md ctr idx hmeta hdoc hcont
  obtain ⟨src', h2, hid2⟩ :=
    @extractOne_slide_id rd md ctr' idx' hmeta hdoc hcont
  have e1 : extractList ctr idx [vdict rd] = .ok ([src], ctr) := by
    simp only [extractList, h1]
  have e2 : extractList ctr' idx' [vdict rd] = .ok ([src'], ctr') := by
    simp only [extractList, h2]
  rw [e1, e2]
  dsimp only [firstSourceId]
  rw [hid1, hid2]

/-- The rational -1/2 (constructed directly so kernel evaluation works). -/
def negHalf : Rat := ⟨-1, 2, by decide, by decide⟩

/-- The lecture reference with a negative fractional start time. -/
def negLectureRef : Val :=
  vdict [("content", vstr "c"),
         ("metadata", vdict [("lecture_id", vstr "L1"),
                             ("start_seconds", vfloat negHalf)])]

/-- C7 counterexample: for `start_seconds = -1/2` the code produces
`lecture-L1-0` (Python `int()` truncates toward zero), while the claimed
`floor(start_seconds)` formula yields `lecture-L1--1` — the claim is false
for negative fractional start times. -/
theorem lecture_id_not_floor :
    firstSourceId (extract_sources_from_references 0 (some [negLectureRef])) =
      some "lecture-L1-0" ∧
    "lecture-L1-" ++ toString (⌊negHalf⌋) = "lecture-L1--1" ∧
    ("lecture-L1-0" : String) ≠ "lecture-L1-" ++ toString (⌊negHalf⌋) := by
  exact ⟨rfl, rfl, by decide⟩

/-- C7 witness: the slide formula at concrete metadata, at two different
supply states, yielding the same deterministic id. -/
theorem extract_source_id_pure_witness :
    firstSourceId (extractList 0 1
        [vdict [("content", vstr "c"),
                ("metadata", vdict [("document_id", vstr "D1"),
                                    ("slide_number", vint 3)])]]) =
      firstSourceId (extractList 7 5
        [vdict [("content", vstr "c"),
                ("metadata", vdict [("document_id", vstr "D1"),
                                    ("slide_number", vint 3)])]]) :=
  extract_source_id_pure.2.2.2
    [("content", vstr "c"),
     ("metadata", vdict [("document_id", vstr "D1"),
                         ("slide_number", vint 3)])]
    [("document_id", vstr "D1"), ("slide_number", vint 3)]
    0 7 1 5 rfl (by decide) ⟨"c", rfl⟩

/-- The reference carries no `chunk_number` key (bare strings trivially). -/
def noChunkKeyB (r : Val) : Bool :=
  match r with
  | vdict d => (lookupKey "chunk_number" d).isNone
  | _ => true

theorem extractOne_chunkNum {ctr idx : Nat} {r : Val} {s : RAGSource} {c : Nat}
    (h : extractOne ctr idx r = .ok (s, c)) (hnc : noChunkKeyB r = true) :
    s.chunk_number = vint (idx : Int) := by
  cases r with
  | vstr t =>
    rw [extractOne] at h
    cases h
    rfl
  | vdict rd =>
    have hl : lookupKey "chunk_number" rd = none := by
      rw [noChunkKeyB] at hnc
      simpa [Option.isNone_iff_eq_none] using hnc
    have hcn : dictGetD rd "chunk_number" (vint (idx : Int)) = vint (idx : Int) := by
      simp [dictGetD, hl]
    rw [extractOne] at h
    dsimp only at h
    split at h
    · split at h
      · split at h
        · exact absurd h (by simp)
        · cases h
          exact hcn
      · split at h
        · split at h
          · exact absurd h (by simp)
          · split at h
            · exact absurd h (by simp)
            · cases h
              exact hcn
        · split at h
          · exact absurd h (by simp)
          · cases h
            exact hcn
    · exact absurd h (by simp)
  | vint n =>
    rw [extractOne.eq_def] at h
    exact absurd h (by simp)
  | vfloat q =>
    rw [extractOne.eq_def] at h
    exact absurd h (by simp)
  | vnone =>
    rw [extractOne.eq_def] at h
    exact absurd h (by simp)
  | vlist xs =>
    rw [extractOne.eq_def] at h
    exact absurd h (by simp)

theorem extractList_chunkNums :
    ∀ {refs : List Val} {ctr idx : Nat} {ss : List RAGSource} {ctr2 : Nat},
    extractList ctr idx refs = .ok (ss, ctr2) →
    (∀ r ∈ refs, noChunkKeyB r = true) →
    ss.map RAGSource.chunk_number =
      (List.range' idx refs.length).map (fun n => vint (n : Int)) := by
  intro refs
  induction refs with
  | nil =>
    intro ctr idx ss ctr2 h hnc
    rw [extractList] at h
    cases h
    rfl
  | cons r rest ih =>
    intro ctr idx ss ctr2 h hnc
    rw [extractList] at h
    rcases h1 : extractOne ctr idx r with e | ⟨s, c⟩ <;> rw [h1] at h <;>
      dsimp only at h
    · exact absurd h (by simp)
    · rcases h2 : extractList c (idx + 1) rest with e | ⟨ss2, c2⟩ <;>
        rw [h2] at h
      · exact absurd h (by simp)
      · cases h
        have hhd := extractOne_chunkNum h1 (hnc r (List.mem_cons_self _ _))
        have htl := ih h2 (fun z hz => hnc z (List.mem_cons_of_mem _ hz))
        show s.chunk_number :: ss2.map RAGSource.chunk_number =
          vint (idx : Int) ::
            (List.range' (idx + 1) rest.length).map (fun n => vint (n : Int))
        rw [hhd, htl]

/-- C10: when `extract_sources_from_references` receives reference dicts
without a `chunk_number` key, or bare string references, it assigns each
source the reference's 1-based position in the input list as its chunk
number; this fallback can differ from the formatter-assigned chunk number
when the input is a sublist of the formatted references — concretely, the
formatter maps the Scenario C lecture reference to chunk 2, but extracting
the singleton list `[lectureRefC]` assigns it chunk 1. -/
theorem extract_chunk_fallback_positions :
    (∀ (refs : List Val) (ctr : Nat) (ss : List RAGSource) (ctr2 : Nat),
      extract_sources_from_references ctr (some refs) = .ok (ss, ctr2) →
      (∀ r ∈ refs, noChunkKeyB r = true) →
      ss.map RAGSource.chunk_number =
        (List.range' 1 refs.length).map (fun n => vint (n : Int))) ∧
    (format_retrieval_context [slideRefC, lectureRefC] .chronological =
        .ok scenarioCtx ∧
      scenarioCtx.chunk_map.lookup 2 = some lectureRefC ∧
      firstChunkNumber
        (extract_sources_from_references 0 (some [lectureRefC])) =
        some (vint 1)) := by
  constructor
  · intro refs ctr ss ctr2 h hnc
    rcases refs with _ | ⟨r, rest⟩
    · rw [extract_sources_from_references] at h
      cases h
      rfl
    · rw [extract_sources_from_references] at h
      · exact extractList_chunkNums h hnc
      · intro hcon
        exact absurd hcon (by simp)
  · exact ⟨rfl, rfl, rfl⟩

/-- C10 witness: the fallback numbering applied to two bare string
references. -/
theorem extract_chunk_fallback_positions_witness :
    [{ source_id := uuidStr 0, source_type := "unknown",
       content_preview := "a", chunk_number := vint 1 },
     { source_id := uuidStr 1, source_type := "unknown",
       content_preview := "b",
       chunk_number := vint 2 : RAGSource }].map RAGSource.chunk_number =
      (List.range' 1 2).map (fun n => vint (n : Int)) :=
  extract_chunk_fallback_positions.1 [vstr "a", vstr "b"] 0
    [{ source_id := uuidStr 0, source_type := "unknown",
       content_preview := "a", chunk_number := vint 1 },
     { source_id := uuidStr 1, source_type := "unknown",
       content_preview := "b", chunk_number := vint 2 }] 2 rfl (by decide)

/-! ## Message-sources persistence (`app/services/message_sources_service.py`)

The database table `ai.message_sources` is modelled as a list of rows in
insertion order; `INSERT ... ON CONFLICT (message_id, source_id) DO NOTHING`
becomes a keyed insert-ignore, `DELETE ... WHERE session_id = :sid` a filter,
and `ORDER BY chunk_number ASC` a sort of the selected rows.  `_to_uuid`
calls Python's `uuid.UUID` constructor, which strips `urn:`/`uuid:`
substrings, surrounding braces and hyphens, and accepts exactly 32 hex
digits, rendering back in lowercase hyphenated form. -/

def listStartsWith : List Char → List Char → Bool
  | [], _ => true
  | _ :: _, [] => false
  | p :: ps, c :: cs => decide (p = c) && listStartsWith ps cs

/-- `str.replace(pat, "")`: remove every (non-overlapping, leftmost)
occurrence of `pat`; fuel-structured on the input length. -/
def removeAllFuel (pat : List Char) : Nat → List Char → List Char
  | _, [] => []
  | 0, l => l
  | fuel + 1, c :: cs =>
    if !pat.isEmpty && listStartsWith pat (c :: cs) then
      removeAllFuel pat fuel (cs.drop (pat.length - 1))
    else c :: removeAllFuel pat fuel cs

def removeAll (pat l : List Char) : List Char :=
  removeAllFuel pat l.length l

/-- `str.strip("\x7b\x7d")`: drop braces from both ends. -/
def stripBraces (cs : List Char) : List Char :=
  let isBrace : Char → Bool := fun c =>
    decide (c = Char.ofNat 123) || decide (c = Char.ofNat 125)
  ((cs.dropWhile isBrace).reverse.dropWhile isBrace).reverse

def isHexChar (c : Char) : Bool :=
  c.isDigit || (decide ('a' ≤ c) && decide (c ≤ 'f')) ||
    (decide ('A' ≤ c) && decide (c ≤ 'F'))

def lowerHex (c : Char) : Char :=
  if decide ('A' ≤ c) && decide (c ≤ 'F') then Char.ofNat (c.toNat + 32) else c

/-- `str(UUID(...))`: lowercase, hyphenated 8-4-4-4-12 rendering of the 32
hex digits. -/
def uuidCanonical (cs : List Char) : String :=
  let l := cs.map lowerHex
  String.mk (l.take 8) ++ "-" ++ String.mk ((l.drop 8).take 4) ++ "-" ++
    String.mk ((l.drop 12).take 4) ++ "-" ++
    String.mk ((l.drop 16).take 4) ++ "-" ++ String.mk (l.drop 20)

/-- `uuid.UUID(s)` on a string argument: `none` models `ValueError`. -/
def UUID_of_string (s : String) : Option String :=
  let cs := removeAll "uuid:".toList (removeAll "urn:".toList s.toList)
  let hexs := (stripBraces cs).filter (fun c => !decide (c = '-'))
  if hexs.length = 32 && hexs.all isHexChar then some (uuidCanonical hexs)
  else none

/-- `_to_uuid(value)`: `None`/falsy gives `None`; `ValueError`/`TypeError`
from `UUID(value)` is caught and gives `None`; a truthy non-string raises
an uncaught `AttributeError` inside `UUID.__init__`. -/
def to_uuid (value : Val) : Except String (Option String) :=
  if truthy value then
    match value with
    | vstr s => .ok (UUID_of_string s)
    | _ => .error "AttributeError: object has no attribute replace"
  else .ok none

/-- One row of `ai.message_sources`.  `chunk_number` is an integer column
(used by `ORDER BY chunk_number ASC`); the remaining payload columns carry
whatever value was bound. -/
structure PRow where
  message_id : String
  session_id : String
  source_id : String
  source_type : String
  chunk_number : Int
  content_preview : String
  document_id : Option String
  slide_number : Val
  lecture_id : Option String
  start_seconds : Val
  end_seconds : Val
  course_id : Option String
  owner_id : Option String
  title : Val

/-- The bound `chunk_number` parameter: `source.chunk_number or 0`; a
truthy non-integer value cannot be stored in the integer column. -/
def chunkParam (v : Val) : Except String Int :=
  match pyOr v (vint 0) with
  | vint n => .ok n
  | _ => .error "DBAPIError: invalid input for integer column chunk_number"

/-- The parameter dict of one INSERT, in Python evaluation order:
`_to_uuid` runs while the dict literal is built, the integer-column check on
`chunk_number or 0` at execute time. -/
def rowOfSource (mid sid : String) (s : RAGSource) : Except String PRow :=
  match to_uuid s.document_id with
  | .error e => .error e
  | .ok docu =>
    match to_uuid s.lecture_id with
    | .error e => .error e
    | .ok lecu =>
      match to_uuid s.course_id with
      | .error e => .error e
      | .ok couu =>
        match to_uuid s.owner_id with
        | .error e => .error e
        | .ok ownu =>
          match chunkParam s.chunk_number with
          | .error e => .error e
          | .ok ck =>
            .ok { message_id := mid, session_id := sid,
                  source_id := s.source_id, source_type := s.source_type,
                  chunk_number := ck, content_preview := s.content_preview,
                  document_id := docu, slide_number := s.slide_number,
                  lecture_id := lecu, start_seconds := s.start_seconds,
                  end_seconds := s.end_seconds, course_id := couu,
                  owner_id := ownu, title := s.title }

/-- Does the table hold a row with this `(message_id, source_id)` key? -/
def hasKey (db : List PRow) (mid srcid : String) : Bool :=
  db.any (fun r => decide (r.message_id = mid) && decide (r.source_id = srcid))

/-- `INSERT ... ON CONFLICT (message_id, source_id) DO NOTHING`. -/
def insertIgnore (db : List PRow) (row : PRow) : List PRow :=
  if hasKey db row.message_id row.source_id then db else db ++ [row]

/-- The per-source loop of `save_message_sources`. -/
def saveLoop (mid sid : String) : List PRow → List RAGSource →
    Except String (List PRow)
  | db, [] => .ok db
  | db, s :: rest =>
    match rowOfSource mid sid s with
    | .error e => .error e
    | .ok row => saveLoop mid sid (insertIgnore db row) rest

/-- `save_message_sources(db, message_id=..., session_id=..., sources=...)`:
early return on an empty list, else insert-ignore each source and commit. -/
def save_message_sources (db : List PRow) (message_id session_id : String)
    (sources : List RAGSource) : Except String (List PRow) :=
  if sources.isEmpty then .ok db
  else saveLoop message_id session_id db sources

abbrev SourceDict := List (String × Val)
abbrev SourceGroups := List (String × List SourceDict)

def strOrNone : Option String → Val
  | some s => vstr s
  | none => vnone

/-- The per-row dict built by `load_sources_for_messages` (lines 97-109):
`session_id` is not echoed back, UUID columns come back as `str(...)` or
`None`. -/
def sourceDictOfRow (row : PRow) : SourceDict :=
  [("source_id", vstr row.source_id),
   ("source_type", vstr row.source_type),
   ("chunk_number", vint row.chunk_number),
   ("content_preview", vstr row.content_preview),
   ("document_id", strOrNone row.document_id),
   ("slide_number", row.slide_number),
   ("lecture_id", strOrNone row.lecture_id),
   ("start_seconds", row.start_seconds),
   ("end_seconds", row.end_seconds),
   ("course_id", strOrNone row.course_id),
   ("title", row.title)]

/-- `ORDER BY chunk_number ASC` (stable) — insertion step. -/
def insertByChunk (r : PRow) : List PRow → List PRow
  | [] => [r]
  | x :: xs =>
    if r.chunk_number ≤ x.chunk_number then r :: x :: xs
    else x :: insertByChunk r xs

def sortByChunk : List PRow → List PRow
  | [] => []
  | x :: xs => insertByChunk x (sortByChunk xs)

/-- `sources_by_message[msg_id].append(...)` with dict-insertion key order. -/
def appendToGroup (mid : String) (d : SourceDict) :
    SourceGroups → SourceGroups
  | [] => [(mid, [d])]
  | g :: gs =>
    if g.1 = mid then (g.1, g.2 ++ [d]) :: gs
    else g :: appendToGroup mid d gs

/-- The row loop of `load_sources_for_messages`. -/
def groupRows : SourceGroups → List PRow → SourceGroups
  | acc, [] => acc
  | acc, r :: rs =>
    groupRows (appendToGroup r.message_id (sourceDictOfRow r) acc) rs

/-- `load_sources_for_messages(db, message_ids)`: `{}` on an empty id list;
otherwise select the rows whose `message_id` is among the ids, sorted by
`chunk_number` ascending, and group them by message id in row order. -/
def load_sources_for_messages (db : List PRow)
    (message_ids : List String) : SourceGroups :=
  if message_ids.isEmpty then []
  else groupRows []
    (sortByChunk (db.filter (fun r => decide (r.message_id ∈ message_ids))))

/-- `delete_sources_for_session(db, session_id)`: remaining table and the
`rowcount` of deleted rows. -/
def delete_sources_for_session (db : List PRow) (session_id : String) :
    List PRow × Nat :=
  (db.filter (fun r => !decide (r.session_id = session_id)),
   (db.filter (fun r => decide (r.session_id = session_id))).length)

def chunkIntOf (d : SourceDict) : Int :=
  match lookupKey "chunk_number" d with
  | some (vint n) => n
  | _ => 0

theorem rowOfSource_fields {mid sid : String} {s : RAGSource} {row : PRow}
    (h : rowOfSource mid sid s = .ok row) :
    row.message_id = mid ∧ row.session_id = sid ∧
      row.source_id = s.source_id := by
  rw [rowOfSource] at h
  split at h
  · exact absurd h (by simp)
  · split at h
    · exact absurd h (by simp)
    · split at h
      · exact absurd h (by simp)
      · split at h
        · exact absurd h (by simp)
        · split at h
          · exact absurd h (by simp)
          · cases h
            exact ⟨rfl, rfl, rfl⟩

theorem hasKey_insertIgnore_mono {db : List PRow} {row : PRow}
    {m s : String} (h : hasKey db m s = true) :
    hasKey (insertIgnore db row) m s = true := by
  rw [insertIgnore]
  split
  · exact h
  · rw [hasKey, List.any_append]
    rw [hasKey] at h
    rw [h]
    rfl

theorem hasKey_insertIgnore_self (db : List PRow) (row : PRow) :
    hasKey (insertIgnore db row) row.message_id row.source_id = true := by
  rw [insertIgnore]
  split
  · assumption
  · rw [hasKey, List.any_append]
    have : List.any [row]
        (fun r => decide (r.message_id = row.message_id) &&
          decide (r.source_id = row.source_id)) = true := by
      simp
    rw [this, Bool.or_true]

theorem saveLoop_hasKey_mono :
    ∀ {l : List RAGSource} {db db' : List PRow} {mid sid m s : String},
    saveLoop mid sid db l = .ok db' → hasKey db m s = true →
    hasKey db' m s = true := by
  intro l
  induction l with
  | nil =>
    intro db db' mid sid m s h hk
    rw [saveLoop] at h
    cases h
    exact hk
  | cons x rest ih =>
    intro db db' mid sid m s h hk
    rw [saveLoop] at h
    rcases h1 : rowOfSource mid sid x with e | row <;> rw [h1] at h <;>
      dsimp only at h
    · exact absurd h (by simp)
    · exact ih h (hasKey_insertIgnore_mono hk)

theorem saveLoop_keys :
    ∀ {l : List RAGSource} {db db' : List PRow} {mid sid : String},
    saveLoop mid sid db l = .ok db' →
    ∀ s ∈ l, (∃ row, rowOfSource mid sid s = .ok row) ∧
      hasKey db' mid s.source_id = true := by
  intro l
  induction l with
  | nil =>
    intro db db' mid sid _ s hs
    exact absurd hs (by simp)
  | cons x rest ih =>
    intro db db' mid sid h s hs
    rw [saveLoop] at h
    rcases h1 : rowOfSource mid sid x with e | row <;> rw [h1] at h <;>
      dsimp only at h
    · exact absurd h (by simp)
    · rcases List.mem_cons.mp hs with rfl | hs'
      · refine ⟨⟨row, h1⟩, ?_⟩
        obtain ⟨hm, _, hsrc⟩ := rowOfSource_fields h1
        have h2 := hasKey_insertIgnore_self db row
        rw [hm, hsrc] at h2
        exact saveLoop_hasKey_mono h h2
      · exact ih h s hs'

theorem saveLoop_retry :
    ∀ {l : List RAGSource} {db : List PRow} {mid sid : String},
    (∀ s ∈ l, (∃ row, rowOfSource mid sid s = .ok row) ∧
      hasKey db mid s.source_id = true) →
    saveLoop mid sid db l = .ok db := by
  intro l
  induction l with
  | nil =>
    intro db mid sid _
    rfl
  | cons x rest ih =>
    intro db mid sid hall
    obtain ⟨⟨row, hrow⟩, hk⟩ := hall x (List.mem_cons_self _ _)
    rw [saveLoop, hrow]
    dsimp only
    obtain ⟨hm, _, hsrc⟩ := rowOfSource_fields hrow
    have hins : insertIgnore db row = db := by
      rw [insertIgnore, if_pos]
      rw [hm, hsrc]
      exact hk
    rw [hins]
    exact ih (fun s hs => hall s (List.mem_cons_of_mem _ hs))

/-- A concrete slide source, saved twice in Scenario D. -/
def srcC8 : RAGSource :=
  { source_id := "slide-D1-3", source_type := "slide",
    content_preview := "slide text", chunk_number := vint 1 }

/-- The single row Scenario D leaves in the table. -/
def rowC8 : PRow :=
  { message_id := "m1", session_id := "sess1", source_id := "slide-D1-3",
    source_type := "slide", chunk_number := 1,
    content_preview := "slide text", document_id := none,
    slide_number := vnone, lecture_id := none, start_seconds := vnone,
    end_seconds := vnone, course_id := none, owner_id := none,
    title := vnone }

/-- C8: `save_message_sources` is an idempotent bulk upsert keyed by
`(message_id, source_id)` — a successful save replayed against the
resulting table is a no-op returning the same table — and duplicate
`(message_id, source_id)` pairs within one call are silently ignored:
saving the same source twice for one message id leaves exactly one
stored row. -/
theorem save_retry_idempotent :
    (∀ (db : List PRow) (mid sid : String) (srcs : List RAGSource)
        (db' : List PRow),
      save_message_sources db mid sid srcs = .ok db' →
      save_message_sources db' mid sid srcs = .ok db') ∧
    (save_message_sources [] "m1" "sess1" [srcC8, srcC8] = .ok [rowC8] ∧
      ([rowC8] : List PRow).length = 1) := by
  constructor
  · intro db mid sid srcs db' h
    by_cases hemp : srcs.isEmpty = true
    · rw [save_message_sources, if_pos hemp] at h
      cases h
      rw [save_message_sources, if_pos hemp]
    · rw [save_message_sources, if_neg hemp] at h
      rw [save_message_sources, if_neg hemp]
      exact saveLoop_retry (saveLoop_keys h)
  · exact ⟨rfl, rfl⟩

/-- C8 witness: replaying Scenario D's save against its own result is the
identity. -/
theorem save_retry_idempotent_witness :
    save_message_sources [rowC8] "m1" "sess1" [srcC8, srcC8] =
      .ok [rowC8] :=
  save_retry_idempotent.1 [] "m1" "sess1" [srcC8, srcC8] [rowC8] rfl

theorem mem_insertByChunk {y r : PRow} :
    ∀ {l : List PRow}, y ∈ insertByChunk r l → y = r ∨ y ∈ l := by
  intro l
  induction l with
  | nil =>
    intro h
    rw [insertByChunk] at h
    simpa using h
  | cons x xs ih =>
    intro h
    rw [insertByChunk] at h
    split at h
    · rcases List.mem_cons.mp h with rfl | h'
      · exact Or.inl rfl
      · exact Or.inr h'
    · rcases List.mem_cons.mp h with rfl | h'
      · exact Or.inr (List.mem_cons_self _ _)
      · rcases ih h' with rfl | h''
        · exact Or.inl rfl
        · exact Or.inr (List.mem_cons_of_mem _ h'')

theorem insertByChunk_sorted {r : PRow} :
    ∀ {l : List PRow},
    l.Pairwise (fun a b => a.chunk_number ≤ b.chunk_number) →
    (insertByChunk r l).Pairwise
      (fun a b => a.chunk_number ≤ b.chunk_number) := by
  intro l
  induction l with
  | nil =>
    intro _
    rw [insertByChunk]
    simp
  | cons x xs ih =>
    intro h
    rw [insertByChunk]
    rcases List.pairwise_cons.mp h with ⟨hx, hxs⟩
    split
    · refine List.pairwise_cons.mpr ⟨?_, h⟩
      intro y hy
      rcases List.mem_cons.mp hy with rfl | hy'
      · assumption
      · exact le_trans (by assumption) (hx y hy')
    · refine List.pairwise_cons.mpr ⟨?_, ih hxs⟩
      intro y hy
      rcases mem_insertByChunk hy with rfl | hy'
      · exact le_of_not_le (by assumption)
      · exact hx y hy'

theorem sortByChunk_sorted :
    ∀ (l : List PRow),
    (sortByChunk l).Pairwise (fun a b => a.chunk_number ≤ b.chunk_number) := by
  intro l
  induction l with
  | nil =>
    rw [sortByChunk]
    simp
  | cons x xs ih =>
    rw [sortByChunk]
    exact insertByChunk_sorted ih

theorem chunkIntOf_sourceDict (r : PRow) :
    chunkIntOf (sourceDictOfRow r) = r.chunk_number := rfl

theorem appendToGroup_mem {mid : String} {d : SourceDict} :
    ∀ {acc : SourceGroups} {g' : String × List SourceDict},
    g' ∈ appendToGroup mid d acc →
    g' ∈ acc ∨ (∃ g ∈ acc, g.1 = mid ∧ g' = (g.1, g.2 ++ [d])) ∨
      g' = (mid, [d]) := by
  intro acc
  induction acc with
  | nil =>
    intro g' h
    rw [appendToGroup] at h
    exact Or.inr (Or.inr (by simpa using h))
  | cons g gs ih =>
    intro g' h
    rw [appendToGroup] at h
    split at h
    · rcases List.mem_cons.mp h with rfl | h'
      · exact Or.inr (Or.inl ⟨g, List.mem_cons_self _ _, by assumption, rfl⟩)
      · exact Or.inl (List.mem_cons_of_mem _ h')
    · rcases List.mem_cons.mp h with rfl | h'
      · exact Or.inl (List.mem_cons_self _ _)
      · rcases ih h' with hin | ⟨g0, hg0, hmid, heq⟩ | hnew
        · exact Or.inl (List.mem_cons_of_mem _ hin)
        · exact Or.inr (Or.inl ⟨g0, List.mem_cons_of_mem _ hg0, hmid, heq⟩)
        · exact Or.inr (Or.inr hnew)

theorem groupRows_sorted_aux :
    ∀ (rows : List PRow) (acc : SourceGroups),
    (∀ g ∈ acc, (g.2.map chunkIntOf).Pairwise (fun a b => a ≤ b)) →
    (∀ g ∈ acc, ∀ d ∈ g.2, ∀ r ∈ rows, chunkIntOf d ≤ r.chunk_number) →
    rows.Pairwise (fun a b => a.chunk_number ≤ b.chunk_number) →
    ∀ g ∈ groupRows acc rows,
      (g.2.map chunkIntOf).Pairwise (fun a b => a ≤ b) := by
  intro rows
  induction rows with
  | nil =>
    intro acc h1 _ _ g hg
    rw [groupRows] at hg
    exact h1 g hg
  | cons r rs ih =>
    intro acc h1 h2 h3 g hg
    rw [groupRows] at hg
    rcases List.pairwise_cons.mp h3 with ⟨hr, hrs⟩
    refine ih (appendToGroup r.message_id (sourceDictOfRow r) acc)
      ?_ ?_ hrs g hg
    · intro g' hg'
      rcases appendToGroup_mem hg' with hin | ⟨g0, hg0, _, rfl⟩ | rfl
      · exact h1 g' hin
      · rw [List.map_append]
        refine List.pairwise_append.mpr ⟨h1 g0 hg0, by simp, ?_⟩
        intro a ha b hb
        rcases List.mem_map.mp ha with ⟨d0, hd0, rfl⟩
        rcases List.mem_singleton.mp (by simpa using hb) with rfl
        rw [chunkIntOf_sourceDict]
        exact h2 g0 hg0 d0 hd0 r (List.mem_cons_self _ _)
      · simp
    · intro g' hg' d' hd' r' hr'
      rcases appendToGroup_mem hg' with hin | ⟨g0, hg0, _, rfl⟩ | rfl
      · exact h2 g' hin d' hd' r' (List.mem_cons_of_mem _ hr')
      · rcases List.mem_append.mp hd' with hd0 | hd0
        · exact h2 g0 hg0 d' hd0 r' (List.mem_cons_of_mem _ hr')
        · rcases List.mem_singleton.mp hd0 with rfl
          rw [chunkIntOf_sourceDict]
          exact hr r' hr'
      · rcases List.mem_singleton.mp hd' with rfl
        rw [chunkIntOf_sourceDict]
        exact hr r' hr'

theorem filter_length_split (p : PRow → Bool) (l : List PRow) :
    (l.filter p).length + (l.filter (fun a => !p a)).length = l.length := by
  induction l with
  | nil => rfl
  | cons a l ih =>
    by_cases h : p a = true <;>
      simp only [List.filter, h, Bool.not_true, Bool.not_false,
        List.length_cons] <;> omega

/-- A stored lecture-source row used to witness the cascade delete. -/
def rowW : PRow :=
  { message_id := "m1", session_id := "s1",
    source_id := "lecture-L1-90", source_type := "lecture",
    chunk_number := 2, content_preview := "lecture text",
    document_id := none, slide_number := vnone, lecture_id := none,
    start_seconds := vnone, end_seconds := vnone, course_id := none,
    owner_id := none, title := vnone }

/-- C9: `delete_sources_for_session` leaves no row with the deleted
session id and reports the number of removed rows; if every stored row of
the given message ids belonged to that session, a subsequent
`load_sources_for_messages` over those ids returns the empty mapping; and
`load_sources_for_messages` always returns each message's sources ordered
ascending by `chunk_number`. -/
theorem delete_then_load_empty_and_sorted :
    (∀ (db : List PRow) (sid : String),
      (∀ r ∈ (delete_sources_for_session db sid).1, r.session_id ≠ sid) ∧
      (delete_sources_for_session db sid).2 +
        (delete_sources_for_session db sid).1.length = db.length) ∧
    (∀ (db : List PRow) (sid : String) (mids : List String),
      (∀ r ∈ db, r.message_id ∈ mids → r.session_id = sid) →
      load_sources_for_messages
        (delete_sources_for_session db sid).1 mids = []) ∧
    (∀ (db : List PRow) (mids : List String)
        (g : String × List SourceDict),
      g ∈ load_sources_for_messages db mids →
      (g.2.map chunkIntOf).Pairwise (fun a b => a ≤ b)) := by
  refine ⟨fun db sid => ⟨?_, ?_⟩, fun db sid mids hprem => ?_,
    fun db mids g hg => ?_⟩
  · intro r hr
    simp only [delete_sources_for_session] at hr
    have h2 := List.mem_filter.mp hr
    simpa using h2.2
  · simp only [delete_sources_for_session]
    exact filter_length_split (fun r => decide (r.session_id = sid)) db
  · by_cases hemp : mids.isEmpty = true
    · rw [load_sources_for_messages, if_pos hemp]
    · rw [load_sources_for_messages, if_neg hemp]
      have hfil : (delete_sources_for_session db sid).1.filter
          (fun r => decide (r.message_id ∈ mids)) = [] := by
        rw [List.filter_eq_nil_iff]
        intro r hr
        simp only [delete_sources_for_session] at hr
        have h2 := List.mem_filter.mp hr
        have hns : ¬r.session_id = sid := by simpa using h2.2
        simp only [decide_eq_true_eq]
        intro hmem
        exact hns (hprem r h2.1 hmem)
      rw [hfil]
      rfl
  · by_cases hemp : mids.isEmpty = true
    · rw [load_sources_for_messages, if_pos hemp] at hg
      exact absurd hg (by simp)
    · rw [load_sources_for_messages, if_neg hemp] at hg
      exact groupRows_sorted_aux _ [] (by simp) (by simp)
        (sortByChunk_sorted _) g hg

/-- C9 witness: deleting session `s1` from a one-row table empties the
subsequent load for its message id. -/
theorem delete_then_load_empty_and_sorted_witness :
    load_sources_for_messages
      (delete_sources_for_session [rowW] "s1").1 ["m1"] = [] :=
  delete_then_load_empty_and_sorted.2.1 [rowW] "s1" ["m1"] (by decide)
